import Mathlib

/-!
A shallow embedding of the serplint static analyzer (serplint.py), a linter
for the Serpent contract language, together with proofs about its diagnostic
engine, scope model, traversal dispatcher and post-pass sweep.

Modelling conventions:
* Python `None`-able strings become `Option String`; the linter's top-level
  scope key `None` is `none`.
* Python exceptions that abort the analysis (IndexError / AttributeError on
  malformed AST shapes, and the unguarded `self.code_lines[line]` index in
  `reposition`) are modelled by returning `Option.none`.
* The external collaborator `serpent` (compile/parse) is modelled by explicit
  result values fed to `lint`: success, an exception whose message matched
  the `line L, char C): msg` regex, or an unmatched exception.
* Python dictionaries (`self.scope`, per-function binding dicts) are
  modelled as association lists in insertion order; CPython 2 dicts are
  unordered, so list order is a determinization that no claim depends on.
* `gather_tokens` builds a Python 2 `set` of `Token` objects; `Token`
  defines `__eq__` but not `__hash__`, so the set hashes by identity:
  it neither deduplicates by name+line nor has a reproducible order.  It is
  modelled as the flattened list of tokens in depth-first order.
* Recursive AST walks take a `fuel` argument; the Python recursion is
  structural, and every theorem about a concrete run supplies enough fuel.
* `click.style` wraps the code in ANSI color codes (red for errors, yellow
  for warnings); `click.echo`'s output is the formatted message string, kept
  in `loggedMessages`, with a structured copy in `diagnostics`.
-/

namespace Serplint

/-- Diagnostic code constants from serplint.py. -/
def ASSIGNED_TO_ARGUMENT : String := "E201"
def COMPILE_ERROR : String := "E100"
def INVALID_KEYWORD_ARGUMENT : String := "E202"
def PARSE_ERROR : String := "E101"
def UNDEFINED_VARIABLE : String := "E200"
def UNREFERENCED_ASSIGNMENT : String := "W203"
def UNUSED_ARGUMENT : String := "W202"

/-- The fixed global identifiers (GLOBALS in serplint.py). -/
def GLOBALS : List String :=
  ["block.coinbase", "block.difficulty", "block.gaslimit", "block.number",
   "block.prevhash", "block.timestamp", "msg.gas", "msg.sender", "msg.value",
   "self", "self.balance", "self.storage", "tx.gasprice"]

/-- KEYWORDS in serplint.py. -/
def KEYWORDS : List String := ["data", "event"]

/-- BUILTINS in serplint.py. -/
def BUILTINS : List String :=
  ["calldatacopy", "calldataload", "div", "log", "return", "send", "string",
   "~invalid"]

/-- The recognized built-in keyword-argument names. -/
def BUILTIN_KEYWORD_ARGUMENTS : List String := ["items", "outitems"]

/-- Characters matched by Python 2 `\s` on byte strings. -/
def isPySpace (c : Char) : Bool :=
  c == ' ' || c == '\t' || c == '\n' || c == '\r' || c == '\x0b' || c == '\x0c'

/-- Length of the leading-whitespace prefix of a source line
(the `re.match(r'(?P<space>\s+)', ...)` step of `reposition`). -/
def leadingWhitespaceLen (s : String) : Nat :=
  (s.toList.takeWhile isPySpace).length

/-- ASCII letter test: Python `re.match('^[a-z]', value, re.IGNORECASE)`. -/
def isAsciiLetter (c : Char) : Bool :=
  ('a' ≤ c && c ≤ 'z') || ('A' ≤ c && c ≤ 'Z')

/-- Model of `Linter.is_reference`: the text starts with an ASCII letter. -/
def isReference (v : String) : Bool :=
  match v.toList with
  | [] => false
  | c :: _ => isAsciiLetter c

/-- Model of `Linter.is_opcode`: nonempty, not digit-initial, and in none of the
static name lists.  (Only used on the debug path in the source.) -/
def isOpcode (v : String) : Bool :=
  (match v.toList with
   | [] => false
   | c :: _ => !(('0' ≤ c && c ≤ '9'))) &&
  !(GLOBALS.contains v) && !(KEYWORDS.contains v) && !(BUILTINS.contains v)

/-- The serpent AST: `serpent.Token` leaves carry a literal text, and
`serpent.Astnode` carries an operator/keyword tag and children.  Both carry
source metadata (0-based line and character). -/
inductive Ast where
  | token (val : String) (ln ch : Nat)
  | node (val : String) (args : List Ast) (ln ch : Nat)
deriving Repr

/-- The `val` attribute, present on both Token and Astnode. -/
def Ast.val : Ast → String
  | .token v _ _ => v
  | .node v _ _ _ => v

/-- The `metadata.ln` attribute. -/
def Ast.ln : Ast → Nat
  | .token _ l _ => l
  | .node _ _ l _ => l

/-- The `metadata.ch` attribute. -/
def Ast.ch : Ast → Nat
  | .token _ _ c => c
  | .node _ _ _ c => c

/-- serplint's own `Token` wrapper: a name plus the source position. -/
structure LToken where
  name : String
  ln : Nat
  ch : Nat
deriving Repr, DecidableEq

/-- One pending entry of `self.checks`: the token and the enclosing
function name (`None` at top level). -/
abbrev Chk := LToken × Option String

/-- One entry of a per-function scope dict: variable kind
(argument / assignment / data_assignment), the `accessed` flag, and the
position of the defining token. -/
structure Binding where
  type : String
  accessed : Bool
  ln : Nat
  ch : Nat
deriving Repr, DecidableEq

/-- The scope table: function name (`none` = top level) to bindings,
in insertion order. -/
abbrev ScopeT := List (Option String × List (String × Binding))

/-- A structured copy of one emitted diagnostic: reported position, code,
raw message and the full formatted text that `click.echo` prints. -/
structure Diag where
  line : Nat
  char : Nat
  code : String
  msg : String
  text : String
deriving Repr, DecidableEq

/-- The linter's mutable state during one analysis run. -/
structure LinterState where
  filename : String
  codeLines : List String
  exitCode : Nat
  loggedMessages : List String
  diagnostics : List Diag
  checks : List Chk
  scope : ScopeT
  data : List String
  events : List String
  macros : List String
  methods : List String
deriving Repr, DecidableEq

/-- Fresh state at the start of `Linter.lint`. -/
def initState (fn : String) (cl : List String) : LinterState :=
  { filename := fn, codeLines := cl, exitCode := 0, loggedMessages := [],
    diagnostics := [], checks := [], scope := [], data := [], events := [],
    macros := [], methods := [] }

/-- Association-list lookup for the outer scope dict. -/
def lookupScope : ScopeT → Option String → Option (List (String × Binding))
  | [], _ => none
  | e :: rest, m => if e.1 = m then some e.2 else lookupScope rest m

/-- Association-list lookup for a per-function binding dict. -/
def lookupVar : List (String × Binding) → String → Option Binding
  | [], _ => none
  | p :: rest, n => if p.1 = n then some p.2 else lookupVar rest n

/-- Model of `Linter.get_scope`: the binding of `name` in `method_name`'s scope. -/
def getScope (st : LinterState) (m : Option String) (name : String) :
    Option Binding :=
  match lookupScope st.scope m with
  | none => none
  | some vars => lookupVar vars name

/-- Dict assignment `vars[name] = b` on a binding dict. -/
def updateVars (vars : List (String × Binding)) (name : String) (b : Binding) :
    List (String × Binding) :=
  if vars.any (fun p => decide (p.1 = name)) then
    vars.map (fun p => if p.1 = name then (name, b) else p)
  else vars ++ [(name, b)]

/-- Dict assignment `self.scope[method_name][name] = b` (defaultdict:
a missing outer key is created). -/
def scopeSet (sc : ScopeT) (m : Option String) (name : String) (b : Binding) :
    ScopeT :=
  if sc.any (fun e => decide (e.1 = m)) then
    sc.map (fun e => if e.1 = m then (e.1, updateVars e.2 name b) else e)
  else sc ++ [(m, updateVars [] name b)]

/-- State update wrapper for `scopeSet`. -/
def scopeInsert (st : LinterState) (m : Option String) (name : String)
    (b : Binding) : LinterState :=
  { st with scope := scopeSet st.scope m name b }

/-- Model of `scope['accessed'] = True` on the binding found by `get_scope`. -/
def setAccessed (st : LinterState) (m : Option String) (name : String) :
    LinterState :=
  { st with scope := st.scope.map (fun e =>
      if e.1 = m then
        (e.1, e.2.map (fun p =>
          if p.1 = name then (p.1, { p.2 with accessed := true }) else p))
      else e) }

/-- Model of `Linter.in_scope`: bound in the function's scope, or present in one of
the four registries, or a builtin, or a global. -/
def inScope (st : LinterState) (name : String) (m : Option String) : Bool :=
  ((lookupScope st.scope m).getD []).any (fun p => decide (p.1 = name)) ||
  decide (name ∈ st.data) || decide (name ∈ st.events) ||
  decide (name ∈ st.macros) || decide (name ∈ st.methods) ||
  decide (name ∈ BUILTINS) || decide (name ∈ GLOBALS)

/-- Model of `click.style(error, fg='red'|'yellow')`: errors (codes starting `E`)
are styled red, everything else yellow. -/
def styleCode (e : String) : String :=
  if e.front = 'E' then "\x1b[31m" ++ e ++ "\x1b[0m"
  else "\x1b[33m" ++ e ++ "\x1b[0m"

/-- The `'{}:{}:{} {} {}'.format(...)` template of `log_message`. -/
def formatText (fn : String) (l c : Nat) (styled msg : String) : String :=
  fn ++ ":" ++ toString l ++ ":" ++ toString c ++ " " ++ styled ++ " " ++ msg

/-- Model of `Linter.reposition`: converts a 0-based AST position to a 1-based
reported position, adding the leading-whitespace length of the source
line.  The source indexes `self.code_lines[line]` without a bounds guard;
an out-of-range line is the modelled IndexError, `none`. -/
def reposition (codeLines : List String) (line char : Nat) :
    Option (Nat × Nat) :=
  match codeLines.get? line with
  | none => none
  | some l => some (line + 1, char + 1 + leadingWhitespaceLen l)

/-- The position actually reported by `log_message`: corrected when
`reposition=True` (the default), untouched when `reposition=False`. -/
def logPosition (st : LinterState) (l c : Nat) (repos : Bool) :
    Option (Nat × Nat) :=
  if repos then reposition st.codeLines l c else some (l, c)

/-- The full formatted text `log_message` would produce. -/
def logText (st : LinterState) (l c : Nat) (e msg : String) (repos : Bool) :
    Option String :=
  (logPosition st l c repos).map
    (fun p => formatText st.filename p.1 p.2 (styleCode e) msg)

/-- Model of `Linter.log_message`: style the code, correct the position (unless
`reposition=False`), format; a formatted text already emitted this run is
discarded silently, otherwise the run is marked failed (`exit_code = 1`)
and the message is appended. -/
def logMessage (st : LinterState) (l c : Nat) (e msg : String)
    (repos : Bool) : Option LinterState :=
  match logPosition st l c repos with
  | none => none
  | some pos =>
    let text := formatText st.filename pos.1 pos.2 (styleCode e) msg
    if text ∈ st.loggedMessages then some st
    else some { st with
      exitCode := 1,
      loggedMessages := st.loggedMessages ++ [text],
      diagnostics := st.diagnostics ++
        [{ line := pos.1, char := pos.2, code := e, msg := msg, text := text }] }

/-- The entries `Linter.check(token, method_name)` appends: nothing when the
token is not a reference, the pending pair otherwise. -/
def mkCheck (tok : LToken) (m : Option String) : List Chk :=
  if isReference tok.name then [(tok, m)] else []

/-- Model of `Linter.check`: defer the reference for the post-traversal resolution. -/
def check (st : LinterState) (tok : LToken) (m : Option String) : LinterState :=
  { st with checks := st.checks ++ mkCheck tok m }

/-- Append a batch of collected check entries (the accumulated
`self.check` calls performed inside `resolve_access`). -/
def addChecks (st : LinterState) (cs : List Chk) : LinterState :=
  { st with checks := st.checks ++ cs }

/-- Model of `self.data.append(...)`. -/
def addData (st : LinterState) (n : String) : LinterState :=
  { st with data := st.data ++ [n] }

/-- Model of `self.events.append(...)`. -/
def addEvent (st : LinterState) (n : String) : LinterState :=
  { st with events := st.events ++ [n] }

/-- Model of `self.macros.append(...)`. -/
def addMacroName (st : LinterState) (n : String) : LinterState :=
  { st with macros := st.macros ++ [n] }

/-- Model of `self.methods.append(...)`. -/
def addMethodName (st : LinterState) (n : String) : LinterState :=
  { st with methods := st.methods ++ [n] }

mutual

/-- Model of `Linter.resolve_access`.  Its only state effect is appending `check`
entries, so it returns the collected entries alongside the canonical name;
callers apply them with `addChecks` at the call point.  `none` models the
IndexError on `node.args[0]` for childless non-access nodes. -/
def resolveAccess (fuel : Nat) (node : Ast) (m : Option String) :
    Option (List Chk × String) :=
  match fuel with
  | 0 => none
  | fuel + 1 =>
    match node with
    | .token v _ _ => some ([], v)
    | .node v args _ _ => do
      let pre ←
        match args with
        | _ :: a1 :: _ =>
          if v = "access" ∧ isReference a1.val then do
            let (cs, nm) ← resolveAccess fuel a1 m
            some (cs ++ mkCheck { name := nm, ln := a1.ln, ch := a1.ch } m)
          else some ([] : List Chk)
        | _ => some ([] : List Chk)
      if v = "access" then
        match args with
        | [] => none
        | a0 :: _ => do
          let (cs, nm) ← resolveAccess fuel a0 m
          some (pre ++ cs, nm)
      else if v = "." then do
        let (cs, parts) ← resolveNameList fuel args m
        some (pre ++ cs, String.intercalate "." parts)
      else
        match args with
        | [] => none
        | a0 :: _ => some (pre, a0.val)

/-- The generator `'.'.join(self.resolve_name(arg, ...) for arg in args)`:
per element, a Token resolves to its `val` and an Astnode goes through
`resolve_access` (exactly `resolve_name` / `resolve_token` on AST values). -/
def resolveNameList (fuel : Nat) (nodes : List Ast) (m : Option String) :
    Option (List Chk × List String) :=
  match fuel with
  | 0 => none
  | fuel + 1 =>
    match nodes with
    | [] => some ([], [])
    | n :: rest => do
      let (cs, s) ←
        match n with
        | .token v _ _ => some (([] : List Chk), v)
        | .node _ _ _ _ => resolveAccess fuel n m
      let (cs2, ss) ← resolveNameList fuel rest m
      some (cs ++ cs2, s :: ss)

end

/-- Model of `Linter.resolve_name` on AST values (the `str` branch and the
`'__unknown__'` fallback are unreachable: AST children are always Token or
Astnode values). -/
def resolveName (fuel : Nat) (node : Ast) (m : Option String) :
    Option (List Chk × String) :=
  match node with
  | .token v _ _ => some ([], v)
  | .node _ _ _ _ => resolveAccess fuel node m

/-- Model of `Linter.resolve_token`: Token leaves give their `val`, everything else
goes through `resolve_access`. -/
def resolveToken (fuel : Nat) (node : Ast) (m : Option String) :
    Option (List Chk × String) :=
  match node with
  | .token v _ _ => some ([], v)
  | .node _ _ _ _ => resolveAccess fuel node m

/-- Model of `Linter.resolve_argument`: unwraps a typed parameter `(: name type)`.
`none` models the AttributeError/IndexError on malformed shapes. -/
def resolveArgument (node : Ast) : Option Ast :=
  match node with
  | .token _ _ _ => some node
  | .node _ [] _ _ => some node
  | .node _ (a0 :: _) _ _ =>
    if a0.val = ":" then
      match a0 with
      | .token _ _ _ => none
      | .node _ [] _ _ => none
      | .node _ (b0 :: _) _ _ => some b0
    else some a0

/-- Model of `Linter.add_to_scope`: resolve the target's canonical name (appending
any checks that resolution performs), emit E201 if the name is currently
bound as an argument, then overwrite the binding with `accessed = False`. -/
def addToScope (fuel : Nat) (st : LinterState) (m : Option String)
    (token : Ast) (vtype : String) : Option LinterState := do
  let (cs, name) ← resolveName fuel token m
  let st1 := addChecks st cs
  let st2 ←
    match getScope st1 m name with
    | some b =>
      if b.type = "argument" then
        logMessage st1 token.ln token.ch ASSIGNED_TO_ARGUMENT
          ("Assigned a value to an argument \"" ++ name ++ "\"") true
      else some st1
    | none => some st1
  some (scopeInsert st2 m name
    { type := vtype, accessed := false, ln := token.ln, ch := token.ch })

mutual

/-- Model of `Linter.traverse_tokens`: collects reference tokens from a subtree.
Dotted accesses become a single joined token; keyword-argument shapes
(`name = value`) flag unrecognized left sides with E202 and search only the
value subtree; leaves yield themselves when they are references.  The
result list is the flattened depth-first collection that `gather_tokens`
builds (see the module comment on the Python 2 `set`). -/
def traverseTokens (fuel : Nat) (st : LinterState) (node : Ast)
    (m : Option String) : Option (LinterState × List LToken) :=
  match fuel with
  | 0 => none
  | fuel + 1 =>
    if node.val = "." then
      match node with
      | .token _ _ _ => none
      | .node _ args ln ch => do
        let (cs, parts) ← resolveNameList fuel args m
        some (addChecks st cs,
              [{ name := String.intercalate "." parts, ln := ln, ch := ch }])
    else if node.val = ":" then
      match node with
      | .token _ _ _ => none
      | .node _ [] _ _ => none
      | .node _ (a0 :: _) _ _ => traverseTokens fuel st a0 m
    else if node.val = "=" then
      match node with
      | .token _ _ _ => none
      | .node _ (a0 :: a1 :: _) _ _ => do
        let st1 ←
          if a0.val ∈ BUILTIN_KEYWORD_ARGUMENTS then some st
          else logMessage st a0.ln a0.ch INVALID_KEYWORD_ARGUMENT
                 ("Invalid keyword argument \"" ++ a0.val ++ "\"") true
        traverseTokens fuel st1 a1 m
      | .node _ _ _ _ => none
    else
      match node with
      | .token v ln ch =>
        some (st, if isReference v then [{ name := v, ln := ln, ch := ch }]
                  else [])
      | .node _ args _ _ => traverseTokensList fuel st args m

/-- Flattening `traverse_tokens` over a list of sibling nodes. -/
def traverseTokensList (fuel : Nat) (st : LinterState) (nodes : List Ast)
    (m : Option String) : Option (LinterState × List LToken) :=
  match fuel with
  | 0 => none
  | fuel + 1 =>
    match nodes with
    | [] => some (st, [])
    | n :: rest => do
      let (st1, ts1) ← traverseTokens fuel st n m
      let (st2, ts2) ← traverseTokensList fuel st1 rest m
      some (st2, ts1 ++ ts2)

end

/-- Model of `Linter.gather_tokens` on a list of sibling nodes (single-node call
sites pass a one-element list, mirroring `nodes = [nodes]`). -/
def gatherTokens (fuel : Nat) (st : LinterState) (nodes : List Ast)
    (m : Option String) : Option (LinterState × List LToken) :=
  traverseTokensList fuel st nodes m

/-- The `for token in self.gather_tokens(...): self.check(token, ...)` loop. -/
def checkAll (st : LinterState) (toks : List LToken) (m : Option String) :
    LinterState :=
  toks.foldl (fun s t => check s t m) st

/-- Model of `Linter.simple_traversal`: check every reference in the given nodes;
returns no nodes for further traversal. -/
def simpleTraversal (fuel : Nat) (st : LinterState) (nodes : List Ast)
    (m : Option String) : Option (LinterState × List Ast) :=
  if nodes.isEmpty then some (st, [])
  else do
    let (st1, toks) ← gatherTokens fuel st nodes m
    some (checkAll st1 toks m, [])

/-- Model of `Linter.conditional_traversal` (if/elif/while/for): check the condition
subtree directly, return the remaining children. -/
def conditionalTraversal (fuel : Nat) (st : LinterState) (node : Ast)
    (m : Option String) : Option (LinterState × List Ast) :=
  match node with
  | .token _ _ _ => none
  | .node _ [] _ _ => none
  | .node _ (cond :: rest) _ _ => do
    let (st1, _) ← simpleTraversal fuel st [cond] m
    some (st1, rest)

/-- Model of `Linter.deep_traversal` (else): all children continue traversal. -/
def deepTraversal (st : LinterState) (node : Ast) :
    Option (LinterState × List Ast) :=
  match node with
  | .token _ _ _ => none
  | .node _ args _ _ => some (st, args)

/-- Model of `Linter.always_traverse` (seq): all children continue traversal. -/
def alwaysTraverse (st : LinterState) (node : Ast) :
    Option (LinterState × List Ast) :=
  match node with
  | .token _ _ _ => none
  | .node _ args _ _ => some (st, args)

/-- Model of `Linter.assignment`: bind the target (data_assignment when it names a
declared data field, plain assignment otherwise), then check every
reference on the right-hand side. -/
def assignment (fuel : Nat) (st : LinterState) (node : Ast)
    (m : Option String) : Option (LinterState × List Ast) :=
  match node with
  | .token _ _ _ => none
  | .node _ [] _ _ => none
  | .node _ (assignee :: rest) _ _ => do
    let (cs, assigneeName) ← resolveName fuel assignee m
    let st0 := addChecks st cs
    let st1 ←
      if isReference assigneeName then
        if assigneeName ∈ st0.data then
          addToScope fuel st0 m assignee "data_assignment"
        else addToScope fuel st0 m assignee "assignment"
      else some st0
    let (st2, toks) ← gatherTokens fuel st1 rest m
    some (checkAll st2 toks m, [])

/-- Model of `Linter.return_type` (`:` nodes): check the value subtree. -/
def returnType (fuel : Nat) (st : LinterState) (node : Ast)
    (m : Option String) : Option (LinterState × List Ast) :=
  match node with
  | .token _ _ _ => none
  | .node _ [] _ _ => none
  | .node _ (rv :: _) _ _ => do
    let (st1, _) ← simpleTraversal fuel st [rv] m
    some (st1, [])

mutual

/-- Model of `Linter.define_data`: register canonical dotted data names; nested
`fun`-shaped declarations (structs) register each field under a compound
prefix. -/
def defineData (fuel : Nat) (st : LinterState) (node : Ast)
    (m : Option String) (pref : Option String) : Option LinterState :=
  match fuel with
  | 0 => none
  | fuel + 1 =>
    if node.val = "fun" then defineDataFun fuel st node m pref
    else
      match node with
      | .token _ _ _ => none
      | .node _ [] _ _ => none
      | .node _ (a0 :: _) _ _ =>
        if a0.val = "fun" then defineDataFun fuel st a0 m pref
        else do
          let (cs, nm) ← resolveAccess fuel a0 m
          some (addData (addChecks st cs) ((pref.getD "self") ++ "." ++ nm))

/-- The `fun_node` branch of `define_data`. -/
def defineDataFun (fuel : Nat) (st : LinterState) (funNode : Ast)
    (m : Option String) (pref : Option String) : Option LinterState :=
  match fuel with
  | 0 => none
  | fuel + 1 =>
    match funNode with
    | .token _ _ _ => none
    | .node _ [] _ _ => none
    | .node _ (f0 :: fields) _ _ => do
      let (cs, nm) ← resolveAccess fuel f0 m
      let name := (pref.getD "self") ++ "." ++ nm
      defineDataFields fuel (addData (addChecks st cs) name) fields m name

/-- The `for field in fun_node.args[1:]` loop of `define_data`. -/
def defineDataFields (fuel : Nat) (st : LinterState) (fields : List Ast)
    (m : Option String) (name : String) : Option LinterState :=
  match fuel with
  | 0 => none
  | fuel + 1 =>
    match fields with
    | [] => some st
    | f :: rest => do
      let st1 ←
        if f.val = "fun" then defineData fuel st f m (some name)
        else do
          let (cs, fn) ← resolveAccess fuel f m
          some (addData (addChecks st cs) (name ++ "." ++ fn))
      defineDataFields fuel st1 rest m name

end

/-- Model of `Linter.define_event`: register the event's name. -/
def defineEvent (st : LinterState) (node : Ast) :
    Option (LinterState × List Ast) :=
  match node with
  | .token _ _ _ => none
  | .node _ [] _ _ => none
  | .node _ (a0 :: _) _ _ => some (addEvent st a0.val, [])

/-- Model of `Linter.define_macro`: register the macro's name, return its body for
continued traversal. -/
def defineMacroNode (st : LinterState) (node : Ast) :
    Option (LinterState × List Ast) :=
  match node with
  | .token _ _ _ => none
  | .node _ (a0 :: body :: _) _ _ => some (addMacroName st a0.val, [body])
  | .node _ _ _ _ => none

/-- The `for token in [resolve_argument(arg) for arg in arguments]` loop of
`define_method`: each parameter becomes an argument binding. -/
def addArgs (fuel : Nat) (st : LinterState) (name : String) :
    List Ast → Option LinterState
  | [] => some st
  | a :: rest => do
    let tok ← resolveArgument a
    let st1 ← addToScope fuel st (some name) tok "argument"
    addArgs fuel st1 name rest

/-- Model of `Linter.define_method`: register `self.<name>` in methods, bind each
parameter as an argument, then either delegate the body node to its own
handler (when its kind is in the dispatch table) or check it directly. -/
def defineMethod (fuel : Nat) (st : LinterState) (node : Ast)
    (m : Option String) (mappingKeys : List String) :
    Option (LinterState × List Ast) :=
  match node with
  | .token _ _ _ => none
  | .node _ [] _ _ => none
  | .node _ (sig :: rest) _ _ => do
    let name := sig.val
    let arguments ←
      match sig with
      | .token _ _ _ => none
      | .node _ as _ _ => some as
    let st1 := addMethodName st ("self." ++ name)
    let st2 ← addArgs fuel st1 name arguments
    match rest with
    | [] => none
    | r1 :: _ =>
      if r1.val ∈ mappingKeys then some (st2, [r1])
      else do
        let (st3, _) ← simpleTraversal fuel st2 rest m
        some (st3, [])

/-- Model of `Linter.log` handler: check every argument except the first. -/
def logHandler (fuel : Nat) (st : LinterState) (node : Ast)
    (m : Option String) : Option (LinterState × List Ast) :=
  match node with
  | .token _ _ _ => none
  | .node _ args _ _ => do
    let (st1, _) ← simpleTraversal fuel st (args.drop 1) m
    some (st1, [])

/-- The dispatch-table keys whose handler is `simple_traversal`. -/
def simpleKeys : List String :=
  ["+", "+=", "-", "-=", "*", "**", "*=", "/", "/=", "%", "%=", "^=", "!",
   ">", "<", ">=", "<=", "==", "!=", "or", "and", "return", "~return",
   "fun", "mcopy"]

/-- All keys of the static `Linter.mapping` dispatch table. -/
def mappingKeys : List String :=
  simpleKeys ++ ["if", "elif", "else", "while", "for", ":", "=",
                 "data", "def", "event", "macro", "log", "seq"]

/-- The `self.mapping[node.val](self, node, method_name)` dispatch. -/
def dispatch (fuel : Nat) (st : LinterState) (node : Ast)
    (m : Option String) : Option (LinterState × List Ast) :=
  if node.val ∈ simpleKeys then do
    let (st1, _) ← simpleTraversal fuel st [node] m
    some (st1, [])
  else if node.val = "if" ∨ node.val = "elif" ∨ node.val = "while" ∨
      node.val = "for" then
    conditionalTraversal fuel st node m
  else if node.val = "else" then deepTraversal st node
  else if node.val = ":" then returnType fuel st node m
  else if node.val = "=" then assignment fuel st node m
  else if node.val = "data" then do
    let st1 ← defineData fuel st node m none
    some (st1, [])
  else if node.val = "def" then defineMethod fuel st node m mappingKeys
  else if node.val = "event" then defineEvent st node
  else if node.val = "macro" then defineMacroNode st node
  else if node.val = "log" then logHandler fuel st node m
  else if node.val = "seq" then alwaysTraverse st node
  else none

mutual

/-- Model of `Linter.traverse`: leaves are checked as bare references; `def` rebinds
the current function name for the whole subtree; unregistered kinds that
are not known macro/method names are silently skipped; otherwise the
registered handler runs and the children it returns are traversed. -/
def traverse (fuel : Nat) (st : LinterState) (node : Ast)
    (m : Option String) : Option LinterState :=
  match fuel with
  | 0 => none
  | fuel + 1 =>
    match node with
    | .token v ln ch => some (check st { name := v, ln := ln, ch := ch } m)
    | .node v args _ _ => do
      let m' ←
        if v = "def" then
          match args with
          | [] => none
          | a0 :: _ => some (some a0.val)
        else some m
      if v ∈ mappingKeys then do
        let (st1, toTraverse) ← dispatch fuel st node m'
        traverseList fuel st1 toTraverse m'
      else if v ∈ st.macros ++ st.methods then do
        let (st1, _) ← simpleTraversal fuel st [node] m'
        some st1
      else some st

/-- The `for node_to_traverse in nodes_to_traverse` recursion. -/
def traverseList (fuel : Nat) (st : LinterState) (nodes : List Ast)
    (m : Option String) : Option LinterState :=
  match fuel with
  | 0 => none
  | fuel + 1 =>
    match nodes with
    | [] => some st
    | n :: rest => do
      let st1 ← traverse fuel st n m
      traverseList fuel st1 rest m

end

/-- The `for token, method_name in self.checks` loop of
`Linter.resolve_checks`. -/
def resolveChecksAux (st : LinterState) : List Chk → Option LinterState
  | [] => some st
  | (tok, m) :: rest => do
    let st1 ←
      if inScope st tok.name m then
        some (match getScope st m tok.name with
              | some _ => setAccessed st m tok.name
              | none => st)
      else
        logMessage st tok.ln tok.ch UNDEFINED_VARIABLE
          ("Undefined variable \"" ++ tok.name ++ "\"") true
    resolveChecksAux st1 rest

/-- Model of `Linter.resolve_checks`: every deferred reference is resolved against
the fully populated scope and registries; unresolved names yield E200,
resolved scope bindings are marked accessed. -/
def resolveChecks (st : LinterState) : Option LinterState :=
  resolveChecksAux st st.checks

/-- The inner loop of the post-pass sweep over one function's bindings. -/
def sweepBindings (st : LinterState) : List (String × Binding) →
    Option LinterState
  | [] => some st
  | (name, b) :: rest => do
    let st1 ←
      if b.accessed then some st
      else if b.type = "argument" then
        logMessage st b.ln b.ch UNUSED_ARGUMENT
          ("Unused argument \"" ++ name ++ "\"") true
      else if b.type = "assignment" ∧ name ∉ GLOBALS then
        logMessage st b.ln b.ch UNREFERENCED_ASSIGNMENT
          ("Unreferenced assignment \"" ++ name ++ "\"") true
      else some st
    sweepBindings st1 rest

/-- Truthiness of `if not method: continue`: the scope key is skipped when
it is `None` or the empty string. -/
def sweepSkip : Option String → Bool
  | none => true
  | some s => s = ""

/-- The outer loop of the post-pass sweep: `if not method: continue` skips
the top-level scope (key `None`, and any empty-string key). -/
def sweepMethods (st : LinterState) : ScopeT → Option LinterState
  | [] => some st
  | (m, vars) :: rest => do
    let st1 ← if sweepSkip m then some st else sweepBindings st vars
    sweepMethods st1 rest

/-- The post-pass sweep at the end of `Linter.lint`. -/
def sweep (st : LinterState) : Option LinterState :=
  sweepMethods st st.scope

/-- Outcome of the external `serpent.compile` collaborator, as observed by
`lint`: success, an exception whose message matched RE_EXCEPTION, or an
exception that did not match. -/
inductive ExtResult where
  | ok
  | errMatched (line char : Nat) (msg : String)
  | errUnmatched (raw : String)

/-- Outcome of the external `serpent.parse` collaborator. -/
inductive ParseOutcome where
  | ok (ast : Ast)
  | errMatched (line char : Nat) (msg : String)
  | errUnmatched (raw : String)

/-- How one `Linter.lint` run ends: normally (returning `st.exitCode`),
through `sys.exit(1)`, or with a modelled Python exception. -/
inductive LintResult where
  | finished (st : LinterState)
  | sysExit (st : LinterState)
  | crashed
deriving Repr, DecidableEq

/-- The analysis phases of `lint` after a successful parse: AST traversal,
deferred check resolution, post-pass sweep. -/
def lintAnalyze (st : LinterState) (ast : Ast) (fuel : Nat) : LintResult :=
  match traverse fuel st ast none with
  | none => .crashed
  | some st2 =>
    match resolveChecks st2 with
    | none => .crashed
    | some st3 =>
      match sweep st3 with
      | none => .crashed
      | some st4 => .finished st4

/-- The parse phase of `lint`: a matched parse failure logs E101 and exits;
an unmatched one exits without a diagnostic; both abort the run. -/
def lintFromParse (st : LinterState) (pr : ParseOutcome) (fuel : Nat) :
    LintResult :=
  match pr with
  | .ok ast => lintAnalyze st ast fuel
  | .errMatched l c msg =>
    match logMessage st l c PARSE_ERROR msg false with
    | some st' => .sysExit st'
    | none => .crashed
  | .errUnmatched _ => .sysExit st

/-- Model of `Linter.lint`: the compile phase first.  A matched compile failure logs
E100 (positions from the exception are reported without whitespace
correction) and the run CONTINUES to the parse phase; only an unmatched
compile exception exits immediately. -/
def lint (fn : String) (cl : List String) (fuel : Nat) (cr : ExtResult)
    (pr : ParseOutcome) : LintResult :=
  let st0 := initState fn cl
  match cr with
  | .ok => lintFromParse st0 pr fuel
  | .errMatched l c msg =>
    match logMessage st0 l c COMPILE_ERROR msg false with
    | some st1 => lintFromParse st1 pr fuel
    | none => .crashed
  | .errUnmatched _ => .sysExit st0

/-- The diagnostic codes the analysis phases (traversal, check resolution,
post-pass sweep) can log. -/
def SemCodes : List String :=
  [UNDEFINED_VARIABLE, ASSIGNED_TO_ARGUMENT, INVALID_KEYWORD_ARGUMENT,
   UNUSED_ARGUMENT, UNREFERENCED_ASSIGNMENT]

/-- All diagnostic codes of the taxonomy. -/
def AllCodes : List String :=
  COMPILE_ERROR :: PARSE_ERROR :: SemCodes

/-- The diagnostic-engine invariant maintained from the fresh state on:
the run is marked failed exactly when some diagnostic was emitted, the
emitted formatted texts are pairwise distinct, and the structured
diagnostics list matches the formatted-text list one for one. -/
def GoodDiag (st : LinterState) : Prop :=
  (st.exitCode = 0 ↔ st.diagnostics = []) ∧
  st.loggedMessages.Nodup ∧
  st.loggedMessages = st.diagnostics.map Diag.text

/-- How the diagnostic fields of the state may change across a fragment of
the run: formatted messages are only appended, structured diagnostics are
appended with codes from `codes`, and `GoodDiag` is preserved. -/
def Evolves (codes : List String) (st st' : LinterState) : Prop :=
  (∀ t, t ∈ st.loggedMessages → t ∈ st'.loggedMessages) ∧
  (∃ ds, st'.diagnostics = st.diagnostics ++ ds ∧ ∀ d ∈ ds, d.code ∈ codes) ∧
  (GoodDiag st → GoodDiag st')

/-- Every binding of one function's scope dict has `accessed = false`. -/
def VarsUnaccessed (vars : List (String × Binding)) : Prop :=
  ∀ p ∈ vars, p.2.accessed = false

/-- Every binding of the scope table has `accessed = false` (true before
`resolve_checks` runs: the traversal only creates unaccessed bindings). -/
def AllUnaccessed (sc : ScopeT) : Prop :=
  ∀ e ∈ sc, VarsUnaccessed e.2

/-- The traversal-phase evolution relation: diagnostics evolve as in
`Evolves`, and no `accessed` flag is ever set. -/
def Advances (codes : List String) (st st' : LinterState) : Prop :=
  Evolves codes st st' ∧
  (AllUnaccessed st.scope → AllUnaccessed st'.scope)

/-- The exit code `lint` returns, when it returns one. -/
def resultExitCode : LintResult → Option Nat
  | .finished st => some st.exitCode
  | _ => none

/-- Code/line/char of each emitted diagnostic of a finished run. -/
def resultDiagTriples : LintResult → Option (List (String × Nat × Nat))
  | .finished st => some (st.diagnostics.map (fun d => (d.code, d.line, d.char)))
  | _ => none

/-- Code/line/char of each diagnostic of a run that ended in `sys.exit`. -/
def sysExitDiagTriples : LintResult → Option (List (String × Nat × Nat))
  | .sysExit st => some (st.diagnostics.map (fun d => (d.code, d.line, d.char)))
  | _ => none

/-- Name and function of each recorded reference check of a finished run. -/
def resultChecks : LintResult → Option (List (String × Option String))
  | .finished st => some (st.checks.map (fun c => (c.1.name, c.2)))
  | _ => none

/-- Scope summary (function, variable, kind, accessed) of a finished run. -/
def resultScope :
    LintResult → Option (List (Option String × List (String × String × Bool)))
  | .finished st =>
    some (st.scope.map (fun e =>
      (e.1, e.2.map (fun p => (p.1, p.2.type, p.2.accessed)))))
  | _ => none

/-- Whether some error-class diagnostic (code starting with `E`) was
emitted. -/
def errorClassEmitted (st : LinterState) : Bool :=
  st.diagnostics.any (fun d => d.code.front == 'E')

/-- Claim C1 evaluated at one run: the final exit status is 0 iff no
error-class diagnostic was emitted. -/
def claimC1Holds : LintResult → Bool
  | .finished st => (st.exitCode == 0) == !errorClassEmitted st
  | _ => true

/-- Claim C2 evaluated at one run with a matched compile failure: exactly
one E100 was emitted and the run aborted with no traversal, scope analysis
or sweep (observable as: no reference checks recorded, no scope entries,
and no diagnostics beyond the single E100). -/
def claimC2Holds : LintResult → Bool
  | .finished st =>
    decide (st.diagnostics.map Diag.code = [COMPILE_ERROR]) &&
    decide (st.scope = []) && decide (st.checks = [])
  | .sysExit st => decide (st.diagnostics.map Diag.code = [COMPILE_ERROR])
  | .crashed => false

/-- Claim C3's "in particular" sentence evaluated at one run: the
pre-binding reference must have produced an E200 diagnostic. -/
def claimC3Holds : LintResult → Bool
  | .finished st => st.diagnostics.any (fun d => d.code == UNDEFINED_VARIABLE)
  | _ => false

/-- Claim C4 evaluated at one run: the unreferenced top-level assignment
must have produced a W203 diagnostic. -/
def claimC4Holds : LintResult → Bool
  | .finished st =>
    st.diagnostics.any (fun d => d.code == UNREFERENCED_ASSIGNMENT)
  | _ => false

/-- AST of `def foo(a): return(1)` — the argument `a` is never read. -/
def c1Ast : Ast :=
  .node "def" [.node "foo" [.token "a" 0 8] 0 4,
               .node "return" [.token "1" 1 4] 1 0] 0 0

/-- A run that emits only the warning W202 (unused argument). -/
def c1Run : LintResult :=
  lint "test.se" ["def foo(a):", "    return(1)"] 20 .ok (.ok c1Ast)

/-- A run whose external compile failed with a matched message but whose
parse succeeded (a semantic compile error such as a bad argument count). -/
def c2Run : LintResult :=
  lint "test.se" ["def foo(a):", "    return(1)"] 20
    (.errMatched 2 5 "Invalid argument count") (.ok c1Ast)

/-- AST of `def foo(): x + 1; x = 1` — `x` is referenced on the line
before its only binding. -/
def c3Ast : Ast :=
  .node "def" [.node "foo" [] 0 4,
               .node "seq" [.node "+" [.token "x" 1 4, .token "1" 1 8] 1 4,
                            .node "=" [.token "x" 2 4, .token "1" 2 8] 2 4]
                 1 0] 0 0

/-- The run for `c3Ast`. -/
def c3Run : LintResult :=
  lint "test.se" ["def foo():", "    x + 1", "    x = 1"] 20 .ok (.ok c3Ast)

/-- AST of the top-level program `x = 1` with `x` never read. -/
def c4Ast : Ast :=
  .node "seq" [.node "=" [.token "x" 0 0, .token "1" 0 4] 0 0] 0 0

/-- The run for `c4Ast`. -/
def c4Run : LintResult :=
  lint "test.se" ["x = 1"] 20 .ok (.ok c4Ast)

/-- A trivial clean run: the AST is the bare literal token `1`. -/
def cleanRun : LintResult :=
  lint "t" ["x = 1"] 5 .ok (.ok (Ast.token "1" 0 0))

/-- The state after logging E100 for a matched compile failure on the
tiny witness input. -/
def c2WitnessState : LinterState :=
  { initState "t" ["x"] with
    exitCode := 1,
    loggedMessages := [formatText "t" 1 1 (styleCode COMPILE_ERROR) "m"],
    diagnostics := [{ line := 1, char := 1, code := COMPILE_ERROR,
                      msg := "m",
                      text := formatText "t" 1 1 (styleCode COMPILE_ERROR) "m" }] }

/-- A state holding one pending check for the undefined name `y`. -/
def c3WitnessState : LinterState :=
  { initState "t" ["x"] with
    checks := [({ name := "y", ln := 0, ch := 0 }, none)] }

/-- The state after `resolve_checks` on `c3WitnessState`: one E200. -/
def c3WitnessState' : LinterState :=
  { c3WitnessState with
    exitCode := 1,
    loggedMessages :=
      [formatText "t" 1 1 (styleCode UNDEFINED_VARIABLE)
        "Undefined variable \"y\""],
    diagnostics := [{ line := 1, char := 1, code := UNDEFINED_VARIABLE,
                      msg := "Undefined variable \"y\"",
                      text := formatText "t" 1 1 (styleCode UNDEFINED_VARIABLE)
                        "Undefined variable \"y\"" }] }

/-- A state whose scope holds one unaccessed plain assignment binding in
the named function `foo`. -/
def c4WitnessState : LinterState :=
  { initState "t" ["x = 1"] with
    scope := [(some "foo",
               [("x", { type := "assignment", accessed := false,
                        ln := 0, ch := 0 })])] }

/-- The state after the sweep on `c4WitnessState`: one W203. -/
def c4WitnessState' : LinterState :=
  { c4WitnessState with
    exitCode := 1,
    loggedMessages :=
      [formatText "t" 1 1 (styleCode UNREFERENCED_ASSIGNMENT)
        "Unreferenced assignment \"x\""],
    diagnostics := [{ line := 1, char := 1, code := UNREFERENCED_ASSIGNMENT,
                      msg := "Unreferenced assignment \"x\"",
                      text := formatText "t" 1 1
                        (styleCode UNREFERENCED_ASSIGNMENT)
                        "Unreferenced assignment \"x\"" }] }

/-- A keyword-argument node `bad = 1` as it appears inside a call. -/
def c7Node : Ast := .node "=" [.token "bad" 0 2, .token "1" 0 8] 0 2

/-- The state after flagging the invalid keyword argument `bad`. -/
def c7WitnessState : LinterState :=
  { initState "t" ["f(bad = 1)"] with
    exitCode := 1,
    loggedMessages :=
      [formatText "t" 1 3 (styleCode INVALID_KEYWORD_ARGUMENT)
        "Invalid keyword argument \"bad\""],
    diagnostics := [{ line := 1, char := 3, code := INVALID_KEYWORD_ARGUMENT,
                      msg := "Invalid keyword argument \"bad\"",
                      text := formatText "t" 1 3
                        (styleCode INVALID_KEYWORD_ARGUMENT)
                        "Invalid keyword argument \"bad\"" }] }

/-- The state after logging E101 for a matched parse failure on the tiny
witness input. -/
def c5E101State : LinterState :=
  { initState "t" ["x"] with
    exitCode := 1,
    loggedMessages := [formatText "t" 1 1 (styleCode PARSE_ERROR) "m"],
    diagnostics := [{ line := 1, char := 1, code := PARSE_ERROR,
                      msg := "m",
                      text := formatText "t" 1 1 (styleCode PARSE_ERROR) "m" }] }

/-- A state with one already-emitted formatted message, for the
deduplication witness. -/
def c6WitnessState : LinterState :=
  { initState "t" ["x"] with
    loggedMessages :=
      [formatText "t" 1 1 (styleCode UNREFERENCED_ASSIGNMENT) "m"] }

/-- A state with one already-accessed binding, for the flag-monotonicity
witness. -/
def c9WitnessState : LinterState :=
  { initState "t" ["x"] with
    scope := [(some "f",
               [("x", { type := "assignment", accessed := true,
                        ln := 0, ch := 0 })])] }

theorem evolves_refl (codes : List String) (st : LinterState) :
    Evolves codes st st :=
  ⟨fun _ h => h, ⟨[], by simp⟩, id⟩

theorem evolves_trans {codes : List String} {st st' st'' : LinterState}
    (h1 : Evolves codes st st') (h2 : Evolves codes st' st'') :
    Evolves codes st st'' := by
  obtain ⟨m1, ⟨ds1, e1, c1⟩, g1⟩ := h1
  obtain ⟨m2, ⟨ds2, e2, c2⟩, g2⟩ := h2
  exact ⟨fun t ht => m2 t (m1 t ht),
         ⟨ds1 ++ ds2, by simp [e2, e1], by
            intro d hd
            rcases List.mem_append.1 hd with h | h
            · exact c1 d h
            · exact c2 d h⟩,
         fun g => g2 (g1 g)⟩

theorem evolves_of_fields {codes : List String} {st st' : LinterState}
    (he : st'.exitCode = st.exitCode)
    (hl : st'.loggedMessages = st.loggedMessages)
    (hd : st'.diagnostics = st.diagnostics) : Evolves codes st st' := by
  refine ⟨fun t ht => hl ▸ ht, ⟨[], by simp [hd], by simp⟩, ?_⟩
  intro g
  unfold GoodDiag at g ⊢
  rw [he, hl, hd]
  exact g

theorem evolves_mono {codes codes' : List String} {st st' : LinterState}
    (hsub : ∀ e ∈ codes, e ∈ codes') (h : Evolves codes st st') :
    Evolves codes' st st' := by
  obtain ⟨m1, ⟨ds, e1, c1⟩, g1⟩ := h
  exact ⟨m1, ⟨ds, e1, fun d hd => hsub _ (c1 d hd)⟩, g1⟩

theorem logMessage_evolves {codes : List String} {st st' : LinterState}
    {l c : Nat} {e msg : String} {r : Bool} (hc : e ∈ codes)
    (h : logMessage st l c e msg r = some st') : Evolves codes st st' := by
  unfold logMessage at h
  cases hp : logPosition st l c r with
  | none => rw [hp] at h; exact absurd h (by simp)
  | some pos =>
    rw [hp] at h
    simp only at h
    split at h
    · cases h
      exact evolves_refl _ _
    · cases h
      rename_i hnotmem
      refine ⟨fun t ht => by simp [ht], ⟨[_], rfl, by simpa using hc⟩, ?_⟩
      rintro ⟨g1, g2, g3⟩
      refine ⟨by simp, ?_, by simp [g3]⟩
      simpa [List.nodup_append, g2] using fun hmem => hnotmem hmem

theorem logMessage_frame {st st' : LinterState} {l c : Nat} {e msg : String}
    {r : Bool} (h : logMessage st l c e msg r = some st') :
    st'.filename = st.filename ∧ st'.codeLines = st.codeLines ∧
    st'.checks = st.checks ∧ st'.scope = st.scope ∧
    st'.data = st.data ∧ st'.events = st.events ∧
    st'.macros = st.macros ∧ st'.methods = st.methods := by
  unfold logMessage at h
  cases hp : logPosition st l c r with
  | none => rw [hp] at h; exact absurd h (by simp)
  | some pos =>
    rw [hp] at h
    simp only at h
    split at h
    · cases h; exact ⟨rfl, rfl, rfl, rfl, rfl, rfl, rfl, rfl⟩
    · cases h; exact ⟨rfl, rfl, rfl, rfl, rfl, rfl, rfl, rfl⟩

theorem logMessage_mem {st st' : LinterState} {l c : Nat} {e msg : String}
    {r : Bool} {t : String} (h : logMessage st l c e msg r = some st')
    (ht : logText st l c e msg r = some t) : t ∈ st'.loggedMessages := by
  unfold logMessage at h
  unfold logText at ht
  cases hp : logPosition st l c r with
  | none => rw [hp] at h; exact absurd h (by simp)
  | some pos =>
    rw [hp] at h ht
    simp only [Option.map_some'] at ht
    cases ht
    simp only at h
    split at h
    · cases h; assumption
    · cases h; simp

theorem logMessage_false_isSome (st : LinterState) (l c : Nat)
    (e msg : String) : (logMessage st l c e msg false).isSome := by
  have hp : logPosition st l c false = some (l, c) := rfl
  unfold logMessage
  rw [hp]
  simp only
  split <;> simp

theorem advances_refl (codes : List String) (st : LinterState) :
    Advances codes st st :=
  ⟨evolves_refl _ _, id⟩

theorem advances_trans {codes : List String} {st st' st'' : LinterState}
    (h1 : Advances codes st st') (h2 : Advances codes st' st'') :
    Advances codes st st'' :=
  ⟨evolves_trans h1.1 h2.1, fun hu => h2.2 (h1.2 hu)⟩

theorem advances_of_fields {codes : List String} {st st' : LinterState}
    (he : st'.exitCode = st.exitCode)
    (hl : st'.loggedMessages = st.loggedMessages)
    (hd : st'.diagnostics = st.diagnostics)
    (hs : st'.scope = st.scope) : Advances codes st st' :=
  ⟨evolves_of_fields he hl hd, fun hu => hs ▸ hu⟩

theorem logMessage_advances {codes : List String} {st st' : LinterState}
    {l c : Nat} {e msg : String} {r : Bool} (hc : e ∈ codes)
    (h : logMessage st l c e msg r = some st') : Advances codes st st' :=
  ⟨logMessage_evolves hc h, fun hu => (logMessage_frame h).2.2.2.1 ▸ hu⟩

theorem updateVars_unaccessed {vars : List (String × Binding)}
    {name : String} {b : Binding} (hv : VarsUnaccessed vars)
    (hb : b.accessed = false) :
    VarsUnaccessed (updateVars vars name b) := by
  unfold updateVars
  split
  · intro p hp
    rcases List.mem_map.1 hp with ⟨q, hq, hpq⟩
    by_cases hqn : q.1 = name
    · rw [if_pos hqn] at hpq
      cases hpq
      exact hb
    · rw [if_neg hqn] at hpq
      cases hpq
      exact hv _ hq
  · intro p hp
    rcases List.mem_append.1 hp with h | h
    · exact hv p h
    · rcases List.mem_singleton.1 h with rfl
      exact hb

theorem scopeSet_unaccessed {sc : ScopeT} {m : Option String}
    {name : String} {b : Binding} (hs : AllUnaccessed sc)
    (hb : b.accessed = false) :
    AllUnaccessed (scopeSet sc m name b) := by
  unfold scopeSet
  split
  · intro e he
    rcases List.mem_map.1 he with ⟨q, hq, hpq⟩
    by_cases hqm : q.1 = m
    · rw [if_pos hqm] at hpq
      cases hpq
      exact updateVars_unaccessed (hs q hq) hb
    · rw [if_neg hqm] at hpq
      cases hpq
      exact hs _ hq
  · intro e he
    rcases List.mem_append.1 he with h | h
    · exact hs e h
    · rcases List.mem_singleton.1 h with rfl
      show VarsUnaccessed (updateVars [] name b)
      exact updateVars_unaccessed (fun p hp => absurd hp (List.not_mem_nil p)) hb

theorem scopeInsert_advances {codes : List String} {st : LinterState}
    {m : Option String} {name : String} {b : Binding}
    (hb : b.accessed = false) :
    Advances codes st (scopeInsert st m name b) :=
  ⟨evolves_of_fields rfl rfl rfl, fun hu => scopeSet_unaccessed hu hb⟩

theorem e201_mem_semCodes : ASSIGNED_TO_ARGUMENT ∈ SemCodes := by
  simp [SemCodes]

theorem e202_mem_semCodes : INVALID_KEYWORD_ARGUMENT ∈ SemCodes := by
  simp [SemCodes]

theorem e200_mem_semCodes : UNDEFINED_VARIABLE ∈ SemCodes := by
  simp [SemCodes]

theorem w202_mem_semCodes : UNUSED_ARGUMENT ∈ SemCodes := by
  simp [SemCodes]

theorem w203_mem_semCodes : UNREFERENCED_ASSIGNMENT ∈ SemCodes := by
  simp [SemCodes]

theorem checkAll_advances (codes : List String) (m : Option String) :
    ∀ (toks : List LToken) (st : LinterState),
      Advances codes st (checkAll st toks m) := by
  intro toks
  induction toks with
  | nil => intro st; exact advances_refl _ _
  | cons t ts ih =>
    intro st
    exact advances_trans (advances_of_fields rfl rfl rfl rfl)
      (ih (check st t m))

theorem addToScope_advances {fuel : Nat} {st : LinterState}
    {m : Option String} {token : Ast} {vtype : String} {st' : LinterState}
    (h : addToScope fuel st m token vtype = some st') :
    Advances SemCodes st st' := by
  unfold addToScope at h
  cases hr : resolveName fuel token m with
  | none => rw [hr] at h; exact absurd h (by simp)
  | some p =>
    obtain ⟨cs, name⟩ := p
    rw [hr] at h
    simp only [Option.bind_eq_bind, Option.some_bind] at h
    have base : Advances SemCodes st (addChecks st cs) :=
      advances_of_fields rfl rfl rfl rfl
    cases hg : getScope (addChecks st cs) m name with
    | none =>
      rw [hg] at h
      cases h
      exact advances_trans base (scopeInsert_advances rfl)
    | some b =>
      rw [hg] at h
      simp only at h
      split at h
      · cases hl : logMessage (addChecks st cs) token.ln token.ch
            ASSIGNED_TO_ARGUMENT
            ("Assigned a value to an argument \"" ++ name ++ "\"") true with
        | none => rw [hl] at h; exact absurd h (by simp)
        | some st2 =>
          rw [hl] at h
          cases h
          exact advances_trans base
            (advances_trans (logMessage_advances e201_mem_semCodes hl)
              (scopeInsert_advances rfl))
      · cases h
        exact advances_trans base (scopeInsert_advances rfl)

theorem traverseTokens_advances :
    ∀ fuel : Nat,
      (∀ (st : LinterState) (node : Ast) (m : Option String)
         (st' : LinterState) (ts : List LToken),
        traverseTokens fuel st node m = some (st', ts) →
        Advances SemCodes st st') ∧
      (∀ (st : LinterState) (nodes : List Ast) (m : Option String)
         (st' : LinterState) (ts : List LToken),
        traverseTokensList fuel st nodes m = some (st', ts) →
        Advances SemCodes st st') := by
  intro fuel
  induction fuel with
  | zero =>
    constructor
    · intro st node m st' ts h
      exact absurd h (by simp [traverseTokens])
    · intro st nodes m st' ts h
      exact absurd h (by simp [traverseTokensList])
  | succ n ih =>
    constructor
    · intro st node m st' ts h
      unfold traverseTokens at h
      split at h
      · -- "." node
        cases node with
        | token v ln ch => exact absurd h (by simp)
        | node v args ln ch =>
          simp only at h
          cases hrl : resolveNameList n args m with
          | none => rw [hrl] at h; exact absurd h (by simp)
          | some p =>
            obtain ⟨cs, parts⟩ := p
            rw [hrl] at h
            cases h
            exact advances_of_fields rfl rfl rfl rfl
      · split at h
        · -- ":" node
          cases node with
          | token v ln ch => exact absurd h (by simp)
          | node v args ln ch =>
            cases args with
            | nil => exact absurd h (by simp)
            | cons a0 rest => exact ih.1 _ _ _ _ _ h
        · split at h
          · -- "=" node
            cases node with
            | token v ln ch => exact absurd h (by simp)
            | node v args ln ch =>
              match args, h with
              | [], h => exact absurd h (by simp)
              | [a0], h => exact absurd h (by simp)
              | a0 :: a1 :: rest, h =>
                simp only at h
                split at h
                · exact ih.1 _ _ _ _ _ h
                · cases hl : logMessage st a0.ln a0.ch
                      INVALID_KEYWORD_ARGUMENT
                      ("Invalid keyword argument \"" ++ a0.val ++ "\"")
                      true with
                  | none => rw [hl] at h; exact absurd h (by simp)
                  | some st1 =>
                    rw [hl] at h
                    exact advances_trans
                      (logMessage_advances e202_mem_semCodes hl)
                      (ih.1 _ _ _ _ _ h)
          · -- leaf or generic node
            cases node with
            | token v ln ch =>
              cases h
              exact advances_refl _ _
            | node v args ln ch => exact ih.2 _ _ _ _ _ h
    · intro st nodes m st' ts h
      unfold traverseTokensList at h
      cases nodes with
      | nil =>
        cases h
        exact advances_refl _ _
      | cons nd rest =>
        simp only at h
        cases ht1 : traverseTokens n st nd m with
        | none => rw [ht1] at h; exact absurd h (by simp)
        | some p1 =>
          obtain ⟨st1, ts1⟩ := p1
          rw [ht1] at h
          simp only [Option.bind_eq_bind, Option.some_bind] at h
          cases ht2 : traverseTokensList n st1 rest m with
          | none => rw [ht2] at h; exact absurd h (by simp)
          | some p2 =>
            obtain ⟨st2, ts2⟩ := p2
            rw [ht2] at h
            cases h
            exact advances_trans (ih.1 _ _ _ _ _ ht1) (ih.2 _ _ _ _ _ ht2)

theorem gatherTokens_advances {fuel : Nat} {st : LinterState}
    {nodes : List Ast} {m : Option String} {st' : LinterState}
    {ts : List LToken} (h : gatherTokens fuel st nodes m = some (st', ts)) :
    Advances SemCodes st st' :=
  (traverseTokens_advances fuel).2 _ _ _ _ _ h

theorem simpleTraversal_advances {fuel : Nat} {st : LinterState}
    {nodes : List Ast} {m : Option String} {st' : LinterState}
    {out : List Ast} (h : simpleTraversal fuel st nodes m = some (st', out)) :
    Advances SemCodes st st' := by
  unfold simpleTraversal at h
  split at h
  · cases h
    exact advances_refl _ _
  · cases hg : gatherTokens fuel st nodes m with
    | none => rw [hg] at h; exact absurd h (by simp)
    | some p =>
      obtain ⟨st1, toks⟩ := p
      rw [hg] at h
      cases h
      exact advances_trans (gatherTokens_advances hg)
        (checkAll_advances _ _ _ _)

theorem conditionalTraversal_advances {fuel : Nat} {st : LinterState}
    {node : Ast} {m : Option String} {st' : LinterState} {out : List Ast}
    (h : conditionalTraversal fuel st node m = some (st', out)) :
    Advances SemCodes st st' := by
  unfold conditionalTraversal at h
  cases node with
  | token v ln ch => exact absurd h (by simp)
  | node v args ln ch =>
    cases args with
    | nil => exact absurd h (by simp)
    | cons cond rest =>
      simp only at h
      cases hs : simpleTraversal fuel st [cond] m with
      | none => rw [hs] at h; exact absurd h (by simp)
      | some p =>
        obtain ⟨st1, o⟩ := p
        rw [hs] at h
        cases h
        exact simpleTraversal_advances hs

theorem deepTraversal_advances {st : LinterState} {node : Ast}
    {st' : LinterState} {out : List Ast}
    (h : deepTraversal st node = some (st', out)) :
    Advances SemCodes st st' := by
  unfold deepTraversal at h
  cases node with
  | token v ln ch => exact absurd h (by simp)
  | node v args ln ch =>
    cases h
    exact advances_refl _ _

theorem alwaysTraverse_advances {st : LinterState} {node : Ast}
    {st' : LinterState} {out : List Ast}
    (h : alwaysTraverse st node = some (st', out)) :
    Advances SemCodes st st' := by
  unfold alwaysTraverse at h
  cases node with
  | token v ln ch => exact absurd h (by simp)
  | node v args ln ch =>
    cases h
    exact advances_refl _ _

theorem assignment_advances {fuel : Nat} {st : LinterState} {node : Ast}
    {m : Option String} {st' : LinterState} {out : List Ast}
    (h : assignment fuel st node m = some (st', out)) :
    Advances SemCodes st st' := by
  unfold assignment at h
  cases node with
  | token v ln ch => exact absurd h (by simp)
  | node v args ln ch =>
    cases args with
    | nil => exact absurd h (by simp)
    | cons assignee rest =>
      simp only at h
      cases hr : resolveName fuel assignee m with
      | none => rw [hr] at h; exact absurd h (by simp)
      | some p =>
        obtain ⟨cs, aname⟩ := p
        rw [hr] at h
        simp only [Option.bind_eq_bind, Option.some_bind] at h
        have base : Advances SemCodes st (addChecks st cs) :=
          advances_of_fields rfl rfl rfl rfl
        have hrest : ∀ st1 : LinterState,
            Advances SemCodes st st1 →
            ((gatherTokens fuel st1 rest m).bind (fun p2 =>
              some (checkAll p2.1 p2.2 m, ([] : List Ast))) = some (st', out)) →
            Advances SemCodes st st' := by
          intro st1 hadv hg
          cases hg2 : gatherTokens fuel st1 rest m with
          | none => rw [hg2] at hg; exact absurd hg (by simp)
          | some p2 =>
            obtain ⟨st2, toks⟩ := p2
            rw [hg2] at hg
            cases hg
            exact advances_trans hadv
              (advances_trans (gatherTokens_advances hg2)
                (checkAll_advances _ _ _ _))
        split at h
        · split at h
          · cases ha : addToScope fuel (addChecks st cs) m assignee
                "data_assignment" with
            | none => rw [ha] at h; exact absurd h (by simp)
            | some st1 =>
              rw [ha] at h
              exact hrest st1
                (advances_trans base (addToScope_advances ha)) h
          · cases ha : addToScope fuel (addChecks st cs) m assignee
                "assignment" with
            | none => rw [ha] at h; exact absurd h (by simp)
            | some st1 =>
              rw [ha] at h
              exact hrest st1
                (advances_trans base (addToScope_advances ha)) h
        · exact hrest (addChecks st cs) base h

theorem returnType_advances {fuel : Nat} {st : LinterState} {node : Ast}
    {m : Option String} {st' : LinterState} {out : List Ast}
    (h : returnType fuel st node m = some (st', out)) :
    Advances SemCodes st st' := by
  unfold returnType at h
  cases node with
  | token v ln ch => exact absurd h (by simp)
  | node v args ln ch =>
    cases args with
    | nil => exact absurd h (by simp)
    | cons rv rest =>
      simp only at h
      cases hs : simpleTraversal fuel st [rv] m with
      | none => rw [hs] at h; exact absurd h (by simp)
      | some p =>
        obtain ⟨st1, o⟩ := p
        rw [hs] at h
        cases h
        exact simpleTraversal_advances hs

theorem defineData_advances :
    ∀ fuel : Nat,
      (∀ (st : LinterState) (node : Ast) (m pref : Option String)
         (st' : LinterState),
        defineData fuel st node m pref = some st' →
        Advances SemCodes st st') ∧
      (∀ (st : LinterState) (funNode : Ast) (m pref : Option String)
         (st' : LinterState),
        defineDataFun fuel st funNode m pref = some st' →
        Advances SemCodes st st') ∧
      (∀ (st : LinterState) (fields : List Ast) (m : Option String)
         (name : String) (st' : LinterState),
        defineDataFields fuel st fields m name = some st' →
        Advances SemCodes st st') := by
  intro fuel
  induction fuel with
  | zero =>
    refine ⟨?_, ?_, ?_⟩
    · intro st node m pref st' h
      exact absurd h (by simp [defineData])
    · intro st funNode m pref st' h
      exact absurd h (by simp [defineDataFun])
    · intro st fields m name st' h
      exact absurd h (by simp [defineDataFields])
  | succ n ih =>
    refine ⟨?_, ?_, ?_⟩
    · intro st node m pref st' h
      unfold defineData at h
      split at h
      · exact ih.2.1 _ _ _ _ _ h
      · cases node with
        | token v ln ch => exact absurd h (by simp)
        | node v args ln ch =>
          cases args with
          | nil => exact absurd h (by simp)
          | cons a0 rest =>
            simp only at h
            split at h
            · exact ih.2.1 _ _ _ _ _ h
            · cases hr : resolveAccess n a0 m with
              | none => rw [hr] at h; exact absurd h (by simp)
              | some p =>
                obtain ⟨cs, nm⟩ := p
                rw [hr] at h
                cases h
                exact advances_of_fields rfl rfl rfl rfl
    · intro st funNode m pref st' h
      unfold defineDataFun at h
      cases funNode with
      | token v ln ch => exact absurd h (by simp)
      | node v args ln ch =>
        cases args with
        | nil => exact absurd h (by simp)
        | cons f0 fields =>
          simp only at h
          cases hr : resolveAccess n f0 m with
          | none => rw [hr] at h; exact absurd h (by simp)
          | some p =>
            obtain ⟨cs, nm⟩ := p
            rw [hr] at h
            simp only [Option.bind_eq_bind, Option.some_bind] at h
            exact advances_trans (advances_of_fields rfl rfl rfl rfl)
              (ih.2.2 (addData (addChecks st cs) ((pref.getD "self") ++ "." ++ nm)) _ _ _ _ h)
    · intro st fields m name st' h
      unfold defineDataFields at h
      cases fields with
      | nil =>
        cases h
        exact advances_refl _ _
      | cons f rest =>
        simp only at h
        split at h
        · cases hd : defineData n st f m (some name) with
          | none => rw [hd] at h; exact absurd h (by simp)
          | some st1 =>
            rw [hd] at h
            simp only [Option.bind_eq_bind, Option.some_bind] at h
            exact advances_trans (ih.1 _ _ _ _ _ hd) (ih.2.2 _ _ _ _ _ h)
        · cases hr : resolveAccess n f m with
          | none => rw [hr] at h; exact absurd h (by simp)
          | some p =>
            obtain ⟨cs, fn⟩ := p
            rw [hr] at h
            simp only [Option.bind_eq_bind, Option.some_bind] at h
            exact advances_trans (advances_of_fields rfl rfl rfl rfl)
              (ih.2.2 (addData (addChecks st cs) (name ++ "." ++ fn)) _ _ _ _ h)

theorem defineEvent_advances {st : LinterState} {node : Ast}
    {st' : LinterState} {out : List Ast}
    (h : defineEvent st node = some (st', out)) :
    Advances SemCodes st st' := by
  unfold defineEvent at h
  cases node with
  | token v ln ch => exact absurd h (by simp)
  | node v args ln ch =>
    cases args with
    | nil => exact absurd h (by simp)
    | cons a0 rest =>
      cases h
      exact advances_of_fields rfl rfl rfl rfl

theorem defineMacroNode_advances {st : LinterState} {node : Ast}
    {st' : LinterState} {out : List Ast}
    (h : defineMacroNode st node = some (st', out)) :
    Advances SemCodes st st' := by
  unfold defineMacroNode at h
  cases node with
  | token v ln ch => exact absurd h (by simp)
  | node v args ln ch =>
    match args, h with
    | [], h => exact absurd h (by simp)
    | [a0], h => exact absurd h (by simp)
    | a0 :: body :: rest, h =>
      cases h
      exact advances_of_fields rfl rfl rfl rfl

theorem addArgs_advances {fuel : Nat} {name : String} :
    ∀ (arguments : List Ast) (st : LinterState) (st' : LinterState),
      addArgs fuel st name arguments = some st' →
      Advances SemCodes st st' := by
  intro arguments
  induction arguments with
  | nil =>
    intro st st' h
    cases h
    exact advances_refl _ _
  | cons a rest ih =>
    intro st st' h
    unfold addArgs at h
    cases ha : resolveArgument a with
    | none => rw [ha] at h; exact absurd h (by simp)
    | some tok =>
      rw [ha] at h
      simp only [Option.bind_eq_bind, Option.some_bind] at h
      cases hs : addToScope fuel st (some name) tok "argument" with
      | none => rw [hs] at h; exact absurd h (by simp)
      | some st1 =>
        rw [hs] at h
        exact advances_trans (addToScope_advances hs) (ih _ _ h)

theorem defineMethod_advances {fuel : Nat} {st : LinterState} {node : Ast}
    {m : Option String} {keys : List String} {st' : LinterState}
    {out : List Ast}
    (h : defineMethod fuel st node m keys = some (st', out)) :
    Advances SemCodes st st' := by
  unfold defineMethod at h
  cases node with
  | token v ln ch => exact absurd h (by simp)
  | node v args ln ch =>
    cases args with
    | nil => exact absurd h (by simp)
    | cons sig rest =>
      simp only at h
      cases sig with
      | token sv sln sch => exact absurd h (by simp)
      | node sv sargs sln sch =>
        simp only [Ast.val, Option.bind_eq_bind, Option.some_bind] at h
        cases ha : addArgs fuel (addMethodName st ("self." ++ sv)) sv sargs with
        | none => rw [ha] at h; exact absurd h (by simp)
        | some st2 =>
          rw [ha] at h
          simp only [Option.some_bind] at h
          have base : Advances SemCodes st st2 :=
            @advances_trans SemCodes st (addMethodName st ("self." ++ sv)) st2
              (advances_of_fields rfl rfl rfl rfl)
              (addArgs_advances sargs _ st2 ha)
          cases rest with
          | nil => exact absurd h (by simp)
          | cons r1 rrest =>
            simp only at h
            split at h
            · cases h
              exact base
            · cases hs : simpleTraversal fuel st2 (r1 :: rrest) m with
              | none => rw [hs] at h; exact absurd h (by simp)
              | some p =>
                obtain ⟨st3, o⟩ := p
                rw [hs] at h
                cases h
                exact advances_trans base (simpleTraversal_advances hs)

theorem logHandler_advances {fuel : Nat} {st : LinterState} {node : Ast}
    {m : Option String} {st' : LinterState} {out : List Ast}
    (h : logHandler fuel st node m = some (st', out)) :
    Advances SemCodes st st' := by
  unfold logHandler at h
  cases node with
  | token v ln ch => exact absurd h (by simp)
  | node v args ln ch =>
    simp only at h
    cases hs : simpleTraversal fuel st (args.drop 1) m with
    | none => rw [hs] at h; exact absurd h (by simp)
    | some p =>
      obtain ⟨st1, o⟩ := p
      rw [hs] at h
      cases h
      exact simpleTraversal_advances hs

set_option maxHeartbeats 1600000 in
theorem dispatch_advances {fuel : Nat} {st : LinterState} {node : Ast}
    {m : Option String} {st' : LinterState} {out : List Ast}
    (h : dispatch fuel st node m = some (st', out)) :
    Advances SemCodes st st' := by
  unfold dispatch at h
  split at h
  · cases hs : simpleTraversal fuel st [node] m with
    | none => rw [hs] at h; exact absurd h (by simp)
    | some p =>
      obtain ⟨st1, o⟩ := p
      rw [hs] at h
      cases h
      exact simpleTraversal_advances hs
  · split at h
    · exact conditionalTraversal_advances h
    · split at h
      · exact deepTraversal_advances h
      · split at h
        · exact returnType_advances h
        · split at h
          · exact assignment_advances h
          · split at h
            · cases hd : defineData fuel st node m none with
              | none => rw [hd] at h; exact absurd h (by simp)
              | some st1 =>
                rw [hd] at h
                cases h
                exact (defineData_advances fuel).1 _ _ _ _ _ hd
            · split at h
              · exact defineMethod_advances h
              · split at h
                · exact defineEvent_advances h
                · split at h
                  · exact defineMacroNode_advances h
                  · split at h
                    · exact logHandler_advances h
                    · split at h
                      · exact alwaysTraverse_advances h
                      · exact absurd h (by simp)

theorem traverse_advances :
    ∀ fuel : Nat,
      (∀ (st : LinterState) (node : Ast) (m : Option String)
         (st' : LinterState),
        traverse fuel st node m = some st' → Advances SemCodes st st') ∧
      (∀ (st : LinterState) (nodes : List Ast) (m : Option String)
         (st' : LinterState),
        traverseList fuel st nodes m = some st' →
        Advances SemCodes st st') := by
  intro fuel
  induction fuel with
  | zero =>
    constructor
    · intro st node m st' h
      exact absurd h (by simp [traverse])
    · intro st nodes m st' h
      exact absurd h (by simp [traverseList])
  | succ n ih =>
    constructor
    · intro st node m st' h
      unfold traverse at h
      cases node with
      | token v ln ch =>
        cases h
        exact advances_of_fields rfl rfl rfl rfl
      | node v args ln ch =>
        simp only at h
        have hcont : ∀ m' : Option String,
            ((if v ∈ mappingKeys then do
                let (st1, toTraverse) ← dispatch n st (Ast.node v args ln ch) m'
                traverseList n st1 toTraverse m'
              else if v ∈ st.macros ++ st.methods then do
                let (st1, _) ← simpleTraversal n st [Ast.node v args ln ch] m'
                some st1
              else some st) = some st') →
            Advances SemCodes st st' := by
          intro m' hbody
          split at hbody
          · cases hd : dispatch n st (Ast.node v args ln ch) m' with
            | none => rw [hd] at hbody; exact absurd hbody (by simp)
            | some p =>
              obtain ⟨st1, toTraverse⟩ := p
              rw [hd] at hbody
              exact advances_trans (dispatch_advances hd)
                (ih.2 _ _ _ _ hbody)
          · split at hbody
            · cases hs : simpleTraversal n st [Ast.node v args ln ch] m' with
              | none => rw [hs] at hbody; exact absurd hbody (by simp)
              | some p =>
                obtain ⟨st1, o⟩ := p
                rw [hs] at hbody
                cases hbody
                exact simpleTraversal_advances hs
            · cases hbody
              exact advances_refl _ _
        split at h
        · cases args with
          | nil => exact absurd h (by simp)
          | cons a0 rest =>
            try simp only [Option.bind_eq_bind, Option.some_bind] at h
            exact hcont _ h
        · try simp only [Option.bind_eq_bind, Option.some_bind] at h
          exact hcont _ h
    · intro st nodes m st' h
      unfold traverseList at h
      cases nodes with
      | nil =>
        cases h
        exact advances_refl _ _
      | cons nd rest =>
        simp only at h
        cases ht : traverse n st nd m with
        | none => rw [ht] at h; exact absurd h (by simp)
        | some st1 =>
          rw [ht] at h
          exact advances_trans (ih.1 _ _ _ _ ht) (ih.2 _ _ _ _ h)

theorem resolveChecksAux_evolves :
    ∀ (l : List Chk) (st st' : LinterState),
      resolveChecksAux st l = some st' → Evolves SemCodes st st' := by
  intro l
  induction l with
  | nil =>
    intro st st' h
    cases h
    exact evolves_refl _ _
  | cons entry rest ih =>
    intro st st' h
    obtain ⟨tok, m⟩ := entry
    unfold resolveChecksAux at h
    split at h
    · simp only [Option.some_bind] at h
      refine evolves_trans ?_ (ih _ _ h)
      cases hg : getScope st m tok.name with
      | none => exact evolves_of_fields rfl rfl rfl
      | some b => exact evolves_of_fields rfl rfl rfl
    · cases hl : logMessage st tok.ln tok.ch UNDEFINED_VARIABLE
          ("Undefined variable \"" ++ tok.name ++ "\"") true with
      | none => rw [hl] at h; exact absurd h (by simp)
      | some st1 =>
        rw [hl] at h
        simp only [Option.some_bind] at h
        exact evolves_trans (logMessage_evolves e200_mem_semCodes hl)
          (ih _ _ h)

theorem resolveChecks_evolves {st st' : LinterState}
    (h : resolveChecks st = some st') : Evolves SemCodes st st' :=
  resolveChecksAux_evolves st.checks st st' h

theorem sweepBindings_advances :
    ∀ (vars : List (String × Binding)) (st st' : LinterState),
      sweepBindings st vars = some st' → Advances SemCodes st st' := by
  intro vars
  induction vars with
  | nil =>
    intro st st' h
    cases h
    exact advances_refl _ _
  | cons p rest ih =>
    intro st st' h
    obtain ⟨name, b⟩ := p
    unfold sweepBindings at h
    split at h
    · simp only [Option.some_bind] at h
      exact ih _ _ h
    · split at h
      · cases hl : logMessage st b.ln b.ch UNUSED_ARGUMENT
            ("Unused argument \"" ++ name ++ "\"") true with
        | none => rw [hl] at h; exact absurd h (by simp)
        | some st1 =>
          rw [hl] at h
          simp only [Option.some_bind] at h
          exact advances_trans (logMessage_advances w202_mem_semCodes hl)
            (ih _ _ h)
      · split at h
        · cases hl : logMessage st b.ln b.ch UNREFERENCED_ASSIGNMENT
              ("Unreferenced assignment \"" ++ name ++ "\"") true with
          | none => rw [hl] at h; exact absurd h (by simp)
          | some st1 =>
            rw [hl] at h
            simp only [Option.some_bind] at h
            exact advances_trans (logMessage_advances w203_mem_semCodes hl)
              (ih _ _ h)
        · simp only [Option.some_bind] at h
          exact ih _ _ h

theorem sweepMethods_advances :
    ∀ (sc : ScopeT) (st st' : LinterState),
      sweepMethods st sc = some st' → Advances SemCodes st st' := by
  intro sc
  induction sc with
  | nil =>
    intro st st' h
    cases h
    exact advances_refl _ _
  | cons e rest ih =>
    intro st st' h
    obtain ⟨m, vars⟩ := e
    unfold sweepMethods at h
    split at h
    · exact ih _ _ h
    · cases hs : sweepBindings st vars with
      | none => rw [hs] at h; exact absurd h (by simp)
      | some st1 =>
        rw [hs] at h
        exact advances_trans (sweepBindings_advances _ _ _ hs) (ih _ _ h)

theorem sweep_advances {st st' : LinterState} (h : sweep st = some st') :
    Advances SemCodes st st' :=
  sweepMethods_advances st.scope st st' h

theorem lintAnalyze_evolves {st : LinterState} {ast : Ast} {fuel : Nat}
    {st' : LinterState} (h : lintAnalyze st ast fuel = .finished st') :
    Evolves SemCodes st st' := by
  unfold lintAnalyze at h
  cases ht : traverse fuel st ast none with
  | none => rw [ht] at h; exact absurd h (by simp)
  | some st2 =>
    rw [ht] at h
    simp only at h
    cases hr : resolveChecks st2 with
    | none => rw [hr] at h; exact absurd h (by simp)
    | some st3 =>
      rw [hr] at h
      simp only at h
      cases hs : sweep st3 with
      | none => rw [hs] at h; exact absurd h (by simp)
      | some st4 =>
        rw [hs] at h
        simp only at h
        cases h
        exact evolves_trans ((traverse_advances fuel).1 _ _ _ _ ht).1
          (evolves_trans (resolveChecks_evolves hr) (sweep_advances hs).1)

theorem semCodes_sub_allCodes : ∀ e ∈ SemCodes, e ∈ AllCodes :=
  fun _ he => List.mem_cons_of_mem _ (List.mem_cons_of_mem _ he)

theorem goodDiag_init (fn : String) (cl : List String) :
    GoodDiag (initState fn cl) :=
  ⟨by simp [initState], by simp [initState], by simp [initState]⟩

theorem lint_finished_evolves {fn : String} {cl : List String} {fuel : Nat}
    {cr : ExtResult} {pr : ParseOutcome} {st : LinterState}
    (h : lint fn cl fuel cr pr = .finished st) :
    Evolves AllCodes (initState fn cl) st := by
  unfold lint at h
  have hparse : ∀ st0 : LinterState,
      lintFromParse st0 pr fuel = .finished st →
      Evolves AllCodes st0 st := by
    intro st0 hp
    unfold lintFromParse at hp
    cases pr with
    | ok ast =>
      exact evolves_mono semCodes_sub_allCodes (lintAnalyze_evolves hp)
    | errMatched l2 c2 m2 =>
      simp only at hp
      cases hl : logMessage st0 l2 c2 PARSE_ERROR m2 false with
      | none => rw [hl] at hp; exact absurd hp (by simp)
      | some st1 => rw [hl] at hp; exact absurd hp (by simp)
    | errUnmatched raw => exact absurd hp (by simp)
  cases cr with
  | ok => exact hparse _ h
  | errMatched l c msg =>
    simp only at h
    cases hl : logMessage (initState fn cl) l c COMPILE_ERROR msg false with
    | none => rw [hl] at h; exact absurd h (by simp)
    | some st1 =>
      rw [hl] at h
      exact evolves_trans
        (logMessage_evolves (by simp [AllCodes]) hl) (hparse _ h)
  | errUnmatched raw => exact absurd h (by simp)

theorem lint_finished_goodDiag {fn : String} {cl : List String} {fuel : Nat}
    {cr : ExtResult} {pr : ParseOutcome} {st : LinterState}
    (h : lint fn cl fuel cr pr = .finished st) : GoodDiag st :=
  (lint_finished_evolves h).2.2 (goodDiag_init fn cl)

theorem lookupVar_map_set {name : String} {b : Binding} :
    ∀ vars : List (String × Binding),
      vars.any (fun p => decide (p.1 = name)) = true →
      lookupVar (vars.map (fun p => if p.1 = name then (name, b) else p))
        name = some b := by
  intro vars
  induction vars with
  | nil => intro h; exact absurd h (by simp)
  | cons p rest ih =>
    intro hany
    by_cases hp : p.1 = name
    · simp [lookupVar, hp]
    · simp only [List.map_cons, if_neg hp, lookupVar]
      apply ih
      simpa [List.any_cons, hp] using hany

theorem lookupVar_append_new {name : String} {b : Binding} :
    ∀ vars : List (String × Binding),
      vars.any (fun p => decide (p.1 = name)) = false →
      lookupVar (vars ++ [(name, b)]) name = some b := by
  intro vars
  induction vars with
  | nil => intro _; simp [lookupVar]
  | cons p rest ih =>
    intro hany
    rw [List.any_cons] at hany
    obtain ⟨h1, h2⟩ := Bool.or_eq_false_iff.mp hany
    have hp : ¬ p.1 = name := by simpa using h1
    simp only [List.cons_append, lookupVar]
    rw [if_neg hp]
    exact ih h2

theorem lookupVar_updateVars {vars : List (String × Binding)}
    {name : String} {b : Binding} :
    lookupVar (updateVars vars name b) name = some b := by
  unfold updateVars
  split
  · exact lookupVar_map_set vars (by assumption)
  · rename_i hany
    refine lookupVar_append_new vars ?_
    cases hb : vars.any (fun p => decide (p.1 = name)) with
    | false => rfl
    | true => exact absurd hb hany

theorem lookupScope_map_set {m : Option String} {name : String}
    {b : Binding} :
    ∀ sc : ScopeT,
      lookupScope (sc.map (fun e =>
        if e.1 = m then (e.1, updateVars e.2 name b) else e)) m =
      (lookupScope sc m).map (fun vars => updateVars vars name b) := by
  intro sc
  induction sc with
  | nil => rfl
  | cons e rest ih =>
    by_cases he : e.1 = m
    · simp [lookupScope, he]
    · simp only [List.map_cons, if_neg he, lookupScope]
      exact ih

theorem lookupScope_none_of_any_false {m : Option String} :
    ∀ sc : ScopeT,
      sc.any (fun e => decide (e.1 = m)) = false →
      lookupScope sc m = none := by
  intro sc
  induction sc with
  | nil => intro _; rfl
  | cons e rest ih =>
    intro hany
    rw [List.any_cons] at hany
    obtain ⟨h1, h2⟩ := Bool.or_eq_false_iff.mp hany
    have he : ¬ e.1 = m := by simpa using h1
    simp only [lookupScope]
    rw [if_neg he]
    exact ih h2

theorem lookupScope_isSome_of_any {m : Option String} :
    ∀ sc : ScopeT,
      sc.any (fun e => decide (e.1 = m)) = true →
      (lookupScope sc m).isSome := by
  intro sc
  induction sc with
  | nil => intro h; exact absurd h (by simp)
  | cons e rest ih =>
    intro hany
    simp only [lookupScope]
    by_cases he : e.1 = m
    · rw [if_pos he]; rfl
    · rw [if_neg he]
      apply ih
      simpa [List.any_cons, he] using hany

theorem lookupScope_append {m : Option String} :
    ∀ (sc extra : ScopeT),
      lookupScope sc m = none →
      lookupScope (sc ++ extra) m = lookupScope extra m := by
  intro sc extra
  induction sc with
  | nil => intro _; rfl
  | cons e rest ih =>
    intro hnone
    simp only [lookupScope] at hnone
    simp only [List.cons_append, lookupScope]
    by_cases he : e.1 = m
    · rw [if_pos he] at hnone; exact absurd hnone (by simp)
    · rw [if_neg he] at hnone
      rw [if_neg he]
      exact ih hnone

theorem getScope_scopeInsert_self {st : LinterState} {m : Option String}
    {name : String} {b : Binding} :
    getScope (scopeInsert st m name b) m name = some b := by
  unfold getScope scopeInsert scopeSet
  simp only
  by_cases hany : st.scope.any (fun e => decide (e.1 = m)) = true
  · rw [if_pos hany, lookupScope_map_set]
    cases hls : lookupScope st.scope m with
    | none =>
      have := lookupScope_isSome_of_any st.scope hany
      rw [hls] at this
      exact absurd this (by simp)
    | some vars =>
      simp only [Option.map_some']
      exact lookupVar_updateVars
  · have hfalse : st.scope.any (fun e => decide (e.1 = m)) = false := by
      cases hb : st.scope.any (fun e => decide (e.1 = m)) with
      | false => rfl
      | true => exact absurd hb hany
    rw [if_neg hany, lookupScope_append _ _
      (lookupScope_none_of_any_false _ hfalse)]
    simp only [lookupScope, if_true]
    exact lookupVar_updateVars

theorem lookupScope_keyed_map {m : Option String}
    {vf : List (String × Binding) → List (String × Binding)} :
    ∀ (sc : ScopeT) (m' : Option String),
      lookupScope (sc.map (fun e => if e.1 = m then (e.1, vf e.2) else e)) m'
      = (lookupScope sc m').map
          (fun vars => if m' = m then vf vars else vars) := by
  intro sc m'
  induction sc with
  | nil => rfl
  | cons e rest ih =>
    by_cases he' : e.1 = m'
    · by_cases he : e.1 = m
      · simp only [List.map_cons, if_pos he, lookupScope]
        rw [if_pos he', if_pos he']
        simp only [Option.map_some']
        rw [if_pos (he'.symm.trans he)]
      · simp only [List.map_cons, if_neg he, lookupScope]
        rw [if_pos he', if_pos he']
        simp only [Option.map_some']
        rw [if_neg (fun hmm => he (he'.trans hmm))]
    · by_cases he : e.1 = m
      · simp only [List.map_cons, if_pos he, lookupScope]
        rw [if_neg he', if_neg he']
        exact ih
      · simp only [List.map_cons, if_neg he, lookupScope]
        rw [if_neg he', if_neg he']
        exact ih

theorem lookupVar_keyed_map {n : String} {ab : Binding → Binding} :
    ∀ (vars : List (String × Binding)) (n' : String),
      lookupVar (vars.map (fun p => if p.1 = n then (p.1, ab p.2) else p)) n'
      = (lookupVar vars n').map (fun b => if n' = n then ab b else b) := by
  intro vars n'
  induction vars with
  | nil => rfl
  | cons p rest ih =>
    by_cases hp' : p.1 = n'
    · by_cases hp : p.1 = n
      · simp only [List.map_cons, if_pos hp, lookupVar]
        rw [if_pos hp', if_pos hp']
        simp only [Option.map_some']
        rw [if_pos (hp'.symm.trans hp)]
      · simp only [List.map_cons, if_neg hp, lookupVar]
        rw [if_pos hp', if_pos hp']
        simp only [Option.map_some']
        rw [if_neg (fun hnn => hp (hp'.trans hnn))]
    · by_cases hp : p.1 = n
      · simp only [List.map_cons, if_pos hp, lookupVar]
        rw [if_neg hp', if_neg hp']
        exact ih
      · simp only [List.map_cons, if_neg hp, lookupVar]
        rw [if_neg hp', if_neg hp']
        exact ih

theorem getScope_setAccessed {st : LinterState} {m : Option String}
    {n : String} (m' : Option String) (n' : String) :
    getScope (setAccessed st m n) m' n' =
      (getScope st m' n').map (fun b =>
        if m' = m ∧ n' = n then { b with accessed := true } else b) := by
  unfold getScope setAccessed
  simp only
  rw [@lookupScope_keyed_map m
    (fun vars => vars.map (fun p =>
      if p.1 = n then (p.1, { p.2 with accessed := true }) else p))
    st.scope m']
  cases hls : lookupScope st.scope m' with
  | none => rfl
  | some vars =>
    simp only [Option.map_some']
    by_cases hm : m' = m
    · rw [if_pos hm]
      rw [@lookupVar_keyed_map n
        (fun b => { b with accessed := true }) vars n']
      cases hlv : lookupVar vars n' with
      | none => rfl
      | some b =>
        simp only [Option.map_some']
        by_cases hn : n' = n
        · rw [if_pos hn, if_pos ⟨hm, hn⟩]
        · rw [if_neg hn, if_neg (fun hand => hn hand.2)]
    · rw [if_neg hm]
      cases hlv : lookupVar vars n' with
      | none => rfl
      | some b =>
        simp only [Option.map_some']
        rw [if_neg (fun hand => hm hand.1)]

theorem setAccessed_inScope {st : LinterState} {m : Option String}
    {n : String} (name : String) (m' : Option String) :
    inScope (setAccessed st m n) name m' = inScope st name m' := by
  unfold inScope setAccessed
  simp only
  rw [@lookupScope_keyed_map m
    (fun vars => vars.map (fun p =>
      if p.1 = n then (p.1, { p.2 with accessed := true }) else p))
    st.scope m']
  cases hls : lookupScope st.scope m' with
  | none => rfl
  | some vars =>
    simp only [Option.map_some', Option.getD_some]
    by_cases hm : m' = m
    · rw [if_pos hm]
      rw [List.any_map]
      have hfg : ((fun p : String × Binding => decide (p.1 = name)) ∘
          (fun p => if p.1 = n then
            (p.1, { p.2 with accessed := true }) else p)) =
          (fun p : String × Binding => decide (p.1 = name)) := by
        funext p
        by_cases hp : p.1 = n
        · simp [Function.comp, hp]
        · simp [Function.comp, hp]
      rw [hfg]
    · rw [if_neg hm]

theorem inScope_congr {st st' : LinterState} (hsc : st'.scope = st.scope)
    (hd : st'.data = st.data) (he : st'.events = st.events)
    (hmc : st'.macros = st.macros) (hmt : st'.methods = st.methods)
    (name : String) (m : Option String) :
    inScope st' name m = inScope st name m := by
  unfold inScope
  rw [hsc, hd, he, hmc, hmt]

theorem logText_congr {st st' : LinterState}
    (hf : st'.filename = st.filename) (hc : st'.codeLines = st.codeLines)
    (l c : Nat) (e msg : String) (r : Bool) :
    logText st' l c e msg r = logText st l c e msg r := by
  unfold logText logPosition reposition
  rw [hf, hc]

theorem logMessage_some_logText {st st' : LinterState} {l c : Nat}
    {e msg : String} {r : Bool} (h : logMessage st l c e msg r = some st') :
    ∃ t, logText st l c e msg r = some t ∧ t ∈ st'.loggedMessages := by
  unfold logMessage at h
  cases hp : logPosition st l c r with
  | none => rw [hp] at h; exact absurd h (by simp)
  | some pos =>
    rw [hp] at h
    refine ⟨formatText st.filename pos.1 pos.2 (styleCode e) msg,
      by unfold logText; rw [hp]; rfl, ?_⟩
    simp only at h
    split at h
    · cases h; assumption
    · cases h; simp

theorem resolveChecksAux_e200_mem :
    ∀ (l : List Chk) (st st' : LinterState) (tok : LToken)
      (m : Option String),
      resolveChecksAux st l = some st' →
      (tok, m) ∈ l →
      inScope st tok.name m = false →
      ∃ t, logText st tok.ln tok.ch UNDEFINED_VARIABLE
          ("Undefined variable \"" ++ tok.name ++ "\"") true = some t ∧
        t ∈ st'.loggedMessages := by
  intro l
  induction l with
  | nil =>
    intro st st' tok m _ hmem _
    exact absurd hmem (List.not_mem_nil _)
  | cons entry rest ih =>
    intro st st' tok m h hmem hns
    obtain ⟨tok0, m0⟩ := entry
    unfold resolveChecksAux at h
    rcases List.mem_cons.1 hmem with heq | hmem'
    · have htok : tok = tok0 := congrArg Prod.fst heq
      have hm : m = m0 := congrArg Prod.snd heq
      subst htok
      subst hm
      split at h
      · rename_i hin
        rw [hns] at hin
        exact absurd hin (by simp)
      · cases hl : logMessage st tok.ln tok.ch UNDEFINED_VARIABLE
            ("Undefined variable \"" ++ tok.name ++ "\"") true with
        | none => rw [hl] at h; exact absurd h (by simp)
        | some st1 =>
          rw [hl] at h
          simp only [Option.some_bind] at h
          obtain ⟨t, hlt, hmem1⟩ := logMessage_some_logText hl
          exact ⟨t, hlt,
            (resolveChecksAux_evolves rest st1 st' h).1 t hmem1⟩
    · split at h
      · cases hg : getScope st m0 tok0.name with
        | none =>
          rw [hg] at h
          exact ih st st' tok m h hmem' hns
        | some b =>
          rw [hg] at h
          have hns1 : inScope (setAccessed st m0 tok0.name) tok.name m
              = false := by
            rw [setAccessed_inScope]
            exact hns
          exact ih (setAccessed st m0 tok0.name) st' tok m h hmem' hns1
      · cases hl : logMessage st tok0.ln tok0.ch UNDEFINED_VARIABLE
            ("Undefined variable \"" ++ tok0.name ++ "\"") true with
        | none => rw [hl] at h; exact absurd h (by simp)
        | some st1 =>
          rw [hl] at h
          simp only [Option.some_bind] at h
          obtain ⟨hf, hc, _, hsc, hd, he, hmc, hmt⟩ := logMessage_frame hl
          have hns1 : inScope st1 tok.name m = false := by
            rw [inScope_congr hsc hd he hmc hmt]
            exact hns
          obtain ⟨t, hlt, hmem1⟩ := ih st1 st' tok m h hmem' hns1
          rw [logText_congr hf hc] at hlt
          exact ⟨t, hlt, hmem1⟩

theorem sweepBindings_frame :
    ∀ (vars : List (String × Binding)) (st st' : LinterState),
      sweepBindings st vars = some st' →
      st'.filename = st.filename ∧ st'.codeLines = st.codeLines := by
  intro vars
  induction vars with
  | nil =>
    intro st st' h
    cases h
    exact ⟨rfl, rfl⟩
  | cons p rest ih =>
    intro st st' h
    obtain ⟨name0, b0⟩ := p
    unfold sweepBindings at h
    split at h
    · simp only [Option.some_bind] at h
      exact ih _ _ h
    · split at h
      · cases hl : logMessage st b0.ln b0.ch UNUSED_ARGUMENT
            ("Unused argument \"" ++ name0 ++ "\"") true with
        | none => rw [hl] at h; exact absurd h (by simp)
        | some st1 =>
          rw [hl] at h
          simp only [Option.some_bind] at h
          obtain ⟨hf, hc, _⟩ := logMessage_frame hl
          obtain ⟨hf2, hc2⟩ := ih _ _ h
          exact ⟨hf2.trans hf, hc2.trans hc⟩
      · split at h
        · cases hl : logMessage st b0.ln b0.ch UNREFERENCED_ASSIGNMENT
              ("Unreferenced assignment \"" ++ name0 ++ "\"") true with
          | none => rw [hl] at h; exact absurd h (by simp)
          | some st1 =>
            rw [hl] at h
            simp only [Option.some_bind] at h
            obtain ⟨hf, hc, _⟩ := logMessage_frame hl
            obtain ⟨hf2, hc2⟩ := ih _ _ h
            exact ⟨hf2.trans hf, hc2.trans hc⟩
        · simp only [Option.some_bind] at h
          exact ih _ _ h

theorem sweepBindings_w203_mem :
    ∀ (vars : List (String × Binding)) (st st' : LinterState)
      (name : String) (b : Binding),
      sweepBindings st vars = some st' →
      (name, b) ∈ vars →
      b.accessed = false → b.type = "assignment" → name ∉ GLOBALS →
      ∃ t, logText st b.ln b.ch UNREFERENCED_ASSIGNMENT
          ("Unreferenced assignment \"" ++ name ++ "\"") true = some t ∧
        t ∈ st'.loggedMessages := by
  intro vars
  induction vars with
  | nil =>
    intro st st' name b _ hmem _ _ _
    exact absurd hmem (List.not_mem_nil _)
  | cons p rest ih =>
    intro st st' name b h hmem hacc htype hglob
    obtain ⟨name0, b0⟩ := p
    unfold sweepBindings at h
    rcases List.mem_cons.1 hmem with heq | hmem'
    · have hn : name = name0 := congrArg Prod.fst heq
      have hb : b = b0 := congrArg Prod.snd heq
      subst hn
      subst hb
      split at h
      · rename_i hacc'
        rw [hacc] at hacc'
        exact absurd hacc' (by simp)
      · split at h
        · rename_i harg
          rw [htype] at harg
          exact absurd harg (by simp)
        · split at h
          · cases hl : logMessage st b.ln b.ch UNREFERENCED_ASSIGNMENT
                ("Unreferenced assignment \"" ++ name ++ "\"") true with
            | none => rw [hl] at h; exact absurd h (by simp)
            | some st1 =>
              rw [hl] at h
              simp only [Option.some_bind] at h
              obtain ⟨t, hlt, hmem1⟩ := logMessage_some_logText hl
              exact ⟨t, hlt,
                (sweepBindings_advances rest st1 st' h).1.1 t hmem1⟩
          · rename_i hcond
            exact absurd ⟨htype, hglob⟩ hcond
    · have hstep : ∀ st1 : LinterState,
          st1.filename = st.filename → st1.codeLines = st.codeLines →
          sweepBindings st1 rest = some st' →
          ∃ t, logText st b.ln b.ch UNREFERENCED_ASSIGNMENT
              ("Unreferenced assignment \"" ++ name ++ "\"") true = some t ∧
            t ∈ st'.loggedMessages := by
        intro st1 hf hc h1
        obtain ⟨t, hlt, hmem1⟩ := ih st1 st' name b h1 hmem' hacc htype hglob
        rw [logText_congr hf hc] at hlt
        exact ⟨t, hlt, hmem1⟩
      split at h
      · simp only [Option.some_bind] at h
        exact hstep st rfl rfl h
      · split at h
        · cases hl : logMessage st b0.ln b0.ch UNUSED_ARGUMENT
              ("Unused argument \"" ++ name0 ++ "\"") true with
          | none => rw [hl] at h; exact absurd h (by simp)
          | some st1 =>
            rw [hl] at h
            simp only [Option.some_bind] at h
            obtain ⟨hf, hc, _⟩ := logMessage_frame hl
            exact hstep st1 hf hc h
        · split at h
          · cases hl : logMessage st b0.ln b0.ch UNREFERENCED_ASSIGNMENT
                ("Unreferenced assignment \"" ++ name0 ++ "\"") true with
            | none => rw [hl] at h; exact absurd h (by simp)
            | some st1 =>
              rw [hl] at h
              simp only [Option.some_bind] at h
              obtain ⟨hf, hc, _⟩ := logMessage_frame hl
              exact hstep st1 hf hc h
          · simp only [Option.some_bind] at h
            exact hstep st rfl rfl h

theorem sweepMethods_w203_mem :
    ∀ (sc : ScopeT) (st st' : LinterState) (f : String)
      (vars : List (String × Binding)) (name : String) (b : Binding),
      sweepMethods st sc = some st' →
      (some f, vars) ∈ sc →
      sweepSkip (some f) = false →
      (name, b) ∈ vars →
      b.accessed = false → b.type = "assignment" → name ∉ GLOBALS →
      ∃ t, logText st b.ln b.ch UNREFERENCED_ASSIGNMENT
          ("Unreferenced assignment \"" ++ name ++ "\"") true = some t ∧
        t ∈ st'.loggedMessages := by
  intro sc
  induction sc with
  | nil =>
    intro st st' f vars name b _ hmem _ _ _ _ _
    exact absurd hmem (List.not_mem_nil _)
  | cons e rest ih =>
    intro st st' f vars name b h hmem hskip hvmem hacc htype hglob
    obtain ⟨m0, vars0⟩ := e
    unfold sweepMethods at h
    rcases List.mem_cons.1 hmem with heq | hmem'
    · have hm : (some f : Option String) = m0 := congrArg Prod.fst heq
      have hv : vars = vars0 := congrArg Prod.snd heq
      subst hv
      rw [← hm] at h
      split at h
      · rename_i hsk
        rw [hskip] at hsk
        exact absurd hsk (by simp)
      · cases hs : sweepBindings st vars with
        | none => rw [hs] at h; exact absurd h (by simp)
        | some st1 =>
          rw [hs] at h
          simp only [Option.some_bind] at h
          obtain ⟨t, hlt, hmem1⟩ :=
            sweepBindings_w203_mem vars st st1 name b hs hvmem hacc
              htype hglob
          exact ⟨t, hlt, (sweepMethods_advances rest st1 st' h).1.1 t hmem1⟩
    · have hstep : ∀ st1 : LinterState,
          st1.filename = st.filename → st1.codeLines = st.codeLines →
          sweepMethods st1 rest = some st' →
          ∃ t, logText st b.ln b.ch UNREFERENCED_ASSIGNMENT
              ("Unreferenced assignment \"" ++ name ++ "\"") true = some t ∧
            t ∈ st'.loggedMessages := by
        intro st1 hf hc h1
        obtain ⟨t, hlt, hmem1⟩ :=
          ih st1 st' f vars name b h1 hmem' hskip hvmem hacc htype hglob
        rw [logText_congr hf hc] at hlt
        exact ⟨t, hlt, hmem1⟩
      split at h
      · simp only [Option.some_bind] at h
        exact hstep st rfl rfl h
      · cases hs : sweepBindings st vars0 with
        | none => rw [hs] at h; exact absurd h (by simp)
        | some st1 =>
          rw [hs] at h
          simp only [Option.some_bind] at h
          obtain ⟨hf, hc⟩ := sweepBindings_frame vars0 st st1 hs
          exact hstep st1 hf hc h

theorem count_one_of_mem_goodDiag {st : LinterState} {t : String}
    (hg : GoodDiag st) (hm : t ∈ st.loggedMessages) :
    st.loggedMessages.count t = 1 :=
  List.count_eq_one_of_mem hg.2.1 hm

theorem getScope_congr {st st' : LinterState} (hsc : st'.scope = st.scope)
    (m : Option String) (n : String) : getScope st' m n = getScope st m n := by
  unfold getScope
  rw [hsc]

theorem resolveChecksAux_accessed_mono :
    ∀ (l : List Chk) (st st' : LinterState),
      resolveChecksAux st l = some st' →
      ∀ (m' : Option String) (n' : String) (b : Binding),
        getScope st m' n' = some b → b.accessed = true →
        (getScope st' m' n').map Binding.accessed = some true := by
  intro l
  induction l with
  | nil =>
    intro st st' h m' n' b hb hacc
    cases h
    rw [hb]
    simp [hacc]
  | cons entry rest ih =>
    intro st st' h m' n' b hb hacc
    obtain ⟨tok0, m0⟩ := entry
    unfold resolveChecksAux at h
    split at h
    · cases hg : getScope st m0 tok0.name with
      | none =>
        rw [hg] at h
        exact ih st st' h m' n' b hb hacc
      | some b0 =>
        rw [hg] at h
        have hb1 : getScope (setAccessed st m0 tok0.name) m' n' =
            some (if m' = m0 ∧ n' = tok0.name then
              { b with accessed := true } else b) := by
          rw [getScope_setAccessed, hb]
          rfl
        have hacc1 : (if m' = m0 ∧ n' = tok0.name then
            { b with accessed := true } else b).accessed = true := by
          split
          · rfl
          · exact hacc
        exact ih (setAccessed st m0 tok0.name) st' h m' n' _ hb1 hacc1
    · cases hl : logMessage st tok0.ln tok0.ch UNDEFINED_VARIABLE
          ("Undefined variable \"" ++ tok0.name ++ "\"") true with
      | none => rw [hl] at h; exact absurd h (by simp)
      | some st1 =>
        rw [hl] at h
        simp only [Option.some_bind] at h
        have hsc := (logMessage_frame hl).2.2.2.1
        have hb1 : getScope st1 m' n' = some b := by
          rw [getScope_congr hsc]
          exact hb
        exact ih st1 st' h m' n' b hb1 hacc

theorem sweepBindings_scope :
    ∀ (vars : List (String × Binding)) (st st' : LinterState),
      sweepBindings st vars = some st' → st'.scope = st.scope := by
  intro vars
  induction vars with
  | nil =>
    intro st st' h
    cases h
    rfl
  | cons p rest ih =>
    intro st st' h
    obtain ⟨name0, b0⟩ := p
    unfold sweepBindings at h
    split at h
    · simp only [Option.some_bind] at h
      exact ih _ _ h
    · split at h
      · cases hl : logMessage st b0.ln b0.ch UNUSED_ARGUMENT
            ("Unused argument \"" ++ name0 ++ "\"") true with
        | none => rw [hl] at h; exact absurd h (by simp)
        | some st1 =>
          rw [hl] at h
          simp only [Option.some_bind] at h
          exact (ih _ _ h).trans (logMessage_frame hl).2.2.2.1
      · split at h
        · cases hl : logMessage st b0.ln b0.ch UNREFERENCED_ASSIGNMENT
              ("Unreferenced assignment \"" ++ name0 ++ "\"") true with
          | none => rw [hl] at h; exact absurd h (by simp)
          | some st1 =>
            rw [hl] at h
            simp only [Option.some_bind] at h
            exact (ih _ _ h).trans (logMessage_frame hl).2.2.2.1
        · simp only [Option.some_bind] at h
          exact ih _ _ h

theorem sweepMethods_scope :
    ∀ (sc : ScopeT) (st st' : LinterState),
      sweepMethods st sc = some st' → st'.scope = st.scope := by
  intro sc
  induction sc with
  | nil =>
    intro st st' h
    cases h
    rfl
  | cons e rest ih =>
    intro st st' h
    obtain ⟨m0, vars0⟩ := e
    unfold sweepMethods at h
    split at h
    · exact ih _ _ h
    · cases hs : sweepBindings st vars0 with
      | none => rw [hs] at h; exact absurd h (by simp)
      | some st1 =>
        rw [hs] at h
        exact (ih _ _ h).trans (sweepBindings_scope vars0 st st1 hs)

theorem addToScope_creates {fuel : Nat} {st : LinterState}
    {m : Option String} {token : Ast} {vtype : String} {st' : LinterState}
    {cs : List Chk} {name : String}
    (h : addToScope fuel st m token vtype = some st')
    (hr : resolveName fuel token m = some (cs, name)) :
    getScope st' m name =
      some { type := vtype, accessed := false, ln := token.ln,
             ch := token.ch } := by
  unfold addToScope at h
  rw [hr] at h
  simp only [Option.bind_eq_bind, Option.some_bind] at h
  cases hg : getScope (addChecks st cs) m name with
  | none =>
    rw [hg] at h
    cases h
    exact getScope_scopeInsert_self
  | some b =>
    rw [hg] at h
    simp only at h
    split at h
    · cases hl : logMessage (addChecks st cs) token.ln token.ch
          ASSIGNED_TO_ARGUMENT
          ("Assigned a value to an argument \"" ++ name ++ "\"") true with
      | none => rw [hl] at h; exact absurd h (by simp)
      | some st2 =>
        rw [hl] at h
        cases h
        exact getScope_scopeInsert_self
    · cases h
      exact getScope_scopeInsert_self

/-- C1 (counterexample): the claim "the final exit status returned by lint
is 0 iff no error-class diagnostic was emitted; emitting only
warning-class diagnostics leaves the status 0" is false on the code.  The
run `c1Run` (`def foo(a): return(1)`) emits exactly one diagnostic, the
warning W202, yet `log_message` sets `exit_code = 1` for any new message:
the run finishes with exit status 1 and no error-class diagnostic. -/
theorem c1_claim_counterexample :
    claimC1Holds c1Run = false ∧
    resultDiagTriples c1Run = some [("W202", 1, 9)] ∧
    resultExitCode c1Run = some 1 :=
  ⟨rfl, rfl, rfl⟩

/-- C1 (amended): the final exit status returned by `lint` is 0 iff NO
diagnostic at all (error- or warning-class) was emitted during the run:
`log_message` marks the run failed on every newly logged message,
regardless of severity. -/
theorem c1_exit_zero_iff_no_diagnostics (fn : String) (cl : List String)
    (fuel : Nat) (cr : ExtResult) (pr : ParseOutcome) (st : LinterState)
    (h : lint fn cl fuel cr pr = LintResult.finished st) :
    st.exitCode = 0 ↔ st.diagnostics = [] :=
  (lint_finished_goodDiag h).1

/-- C1 (witness): the amended theorem applied to the clean run on the AST
consisting of the literal token `1`. -/
theorem c1_witness :
    lint "t" ["x = 1"] 5 ExtResult.ok (ParseOutcome.ok (Ast.token "1" 0 0))
      = LintResult.finished (initState "t" ["x = 1"]) ∧
    ((initState "t" ["x = 1"]).exitCode = 0 ↔
      (initState "t" ["x = 1"]).diagnostics = []) :=
  ⟨rfl, c1_exit_zero_iff_no_diagnostics "t" ["x = 1"] 5 ExtResult.ok
    (ParseOutcome.ok (Ast.token "1" 0 0)) (initState "t" ["x = 1"]) rfl⟩

/-- C2 (counterexample): the claim "a matched compile failure emits
exactly one E100 and then aborts: no AST traversal, scope analysis or
post-pass sweep occurs" is false on the code.  In `c2Run` the compile step
fails with a matched message, E100 is emitted — and the run then parses,
traverses and sweeps: the final diagnostics are E100 followed by the
sweep's W202, and the scope table holds the traversed function. -/
theorem c2_claim_counterexample :
    claimC2Holds c2Run = false ∧
    resultDiagTriples c2Run = some [("E100", 2, 5), ("W202", 1, 9)] ∧
    resultScope c2Run = some [(some "foo", [("a", "argument", false)])] :=
  ⟨rfl, rfl, rfl⟩

/-- C2 (amended): a matched compile failure emits exactly one E100
diagnostic, first in the output and at the parsed (uncorrected) position,
but does NOT abort the run: parsing is still attempted, and when parsing
succeeds the full analysis (traversal, check resolution, post-pass sweep)
runs on the state that already holds the E100.  Only the parse phase
aborts the run. -/
theorem c2_compile_error_continues (fn : String) (cl : List String)
    (fuel l c : Nat) (msg : String) (ast : Ast) (st : LinterState)
    (h : lint fn cl fuel (ExtResult.errMatched l c msg)
      (ParseOutcome.ok ast) = LintResult.finished st) :
    st.diagnostics.countP (fun d => d.code == COMPILE_ERROR) = 1 ∧
    st.diagnostics.head?.map (fun d => (d.line, d.char, d.code, d.msg)) =
      some (l, c, COMPILE_ERROR, msg) ∧
    (logMessage (initState fn cl) l c COMPILE_ERROR msg false).elim False
      (fun st1 => lintAnalyze st1 ast fuel = LintResult.finished st) := by
  unfold lint at h
  simp only at h
  cases hl : logMessage (initState fn cl) l c COMPILE_ERROR msg false with
  | none => rw [hl] at h; exact absurd h (by simp)
  | some st1 =>
    rw [hl] at h
    have hana : lintAnalyze st1 ast fuel = LintResult.finished st := h
    injection hl with h1
    subst h1
    obtain ⟨hm, ⟨ds, hdiag, hcodes⟩, hgd⟩ := lintAnalyze_evolves hana
    refine ⟨?_, ?_, ?_⟩
    · rw [hdiag, List.countP_append]
      have h0 : List.countP (fun d => d.code == COMPILE_ERROR) ds = 0 := by
        rw [List.countP_eq_zero]
        intro d hd
        have hdc := hcodes d hd
        simp only [beq_iff_eq]
        intro hceq
        rw [hceq] at hdc
        exact absurd hdc (by decide)
      rw [h0]
      rfl
    · rw [hdiag]
      rfl
    · exact hana

/-- C2 (witness): the amended theorem applied to a matched compile failure
on the tiny input whose AST is the literal token `1`. -/
theorem c2_witness :
    c2WitnessState.diagnostics.countP (fun d => d.code == COMPILE_ERROR)
      = 1 ∧
    c2WitnessState.diagnostics.head?.map
      (fun d => (d.line, d.char, d.code, d.msg)) =
      some (1, 1, COMPILE_ERROR, "m") ∧
    (logMessage (initState "t" ["x"]) 1 1 COMPILE_ERROR "m" false).elim
      False (fun st1 => lintAnalyze st1 (Ast.token "1" 0 0) 5 =
        LintResult.finished c2WitnessState) :=
  c2_compile_error_continues "t" ["x"] 5 1 1 "m" (Ast.token "1" 0 0)
    c2WitnessState rfl

/-- C3 (counterexample): the claim's "in particular a reference occurring
textually before a later binding of the same name in the same function
still yields the E200" is false on the code.  In `c3Run`
(`def foo(): x + 1; x = 1`) the reference to `x` on the earlier line is
recorded as a check, but checks are resolved only AFTER the whole
traversal, when the later binding of `x` is already in scope: no E200 (or
any other diagnostic) is emitted, and the binding is even marked
accessed. -/
theorem c3_claim_counterexample :
    claimC3Holds c3Run = false ∧
    resultChecks c3Run = some [("x", some "foo")] ∧
    resultScope c3Run = some [(some "foo", [("x", "assignment", true)])] ∧
    resultDiagTriples c3Run = some [] :=
  ⟨rfl, rfl, rfl, rfl⟩

/-- C3 (amended): a checked reference whose name is — at resolution time,
after the full traversal — bound nowhere in its function's scope and
present in no registry, builtin or global set yields exactly one E200
diagnostic whose formatted text carries the reference's position; a
reference textually before a later binding of the same name does NOT
yield E200, because the binding exists when checks are resolved. -/
theorem c3_unresolved_reference_e200 (st st' : LinterState) (tok : LToken)
    (m : Option String)
    (hmem : (tok, m) ∈ st.checks)
    (hns : inScope st tok.name m = false)
    (hgd : GoodDiag st)
    (hok : resolveChecks st = some st') :
    (logText st tok.ln tok.ch UNDEFINED_VARIABLE
      ("Undefined variable \"" ++ tok.name ++ "\"") true).isSome = true ∧
    st'.loggedMessages.count
      ((logText st tok.ln tok.ch UNDEFINED_VARIABLE
        ("Undefined variable \"" ++ tok.name ++ "\"") true).getD "") = 1 ∧
    st'.loggedMessages = st'.diagnostics.map Diag.text := by
  obtain ⟨t, hlt, hmemt⟩ :=
    resolveChecksAux_e200_mem st.checks st st' tok m hok hmem hns
  have hgd' : GoodDiag st' := (resolveChecks_evolves hok).2.2 hgd
  refine ⟨by rw [hlt]; rfl, ?_, hgd'.2.2⟩
  rw [hlt]
  simp only [Option.getD_some]
  exact count_one_of_mem_goodDiag hgd' hmemt

/-- C3 (witness): the amended theorem applied to a state holding a single
pending check for the undefined name `y`. -/
theorem c3_witness :
    (logText c3WitnessState 0 0 UNDEFINED_VARIABLE
      "Undefined variable \"y\"" true).isSome = true ∧
    c3WitnessState'.loggedMessages.count
      ((logText c3WitnessState 0 0 UNDEFINED_VARIABLE
        "Undefined variable \"y\"" true).getD "") = 1 ∧
    c3WitnessState'.loggedMessages =
      c3WitnessState'.diagnostics.map Diag.text :=
  c3_unresolved_reference_e200 c3WitnessState c3WitnessState'
    { name := "y", ln := 0, ch := 0 } none
    (by decide)
    (by decide)
    ⟨by decide, by decide, rfl⟩
    rfl

/-- C4 (counterexample): the claim "a top-level unreferenced plain
assignment yields exactly one W203" is false on the code.  In `c4Run`
(top-level `x = 1`, `x` never read) the binding sits in the scope entry
with key `None`, and the sweep's `if not method: continue` skips exactly
that entry: the run finishes with no diagnostics and exit status 0. -/
theorem c4_claim_counterexample :
    claimC4Holds c4Run = false ∧
    resultScope c4Run = some [(none, [("x", "assignment", false)])] ∧
    resultDiagTriples c4Run = some [] ∧
    resultExitCode c4Run = some 0 :=
  ⟨rfl, rfl, rfl, rfl⟩

/-- C4 (amended): the post-pass sweep skips the top-level scope (key
`None`) outright, so top-level unreferenced assignments yield no
diagnostic; inside a NAMED function's scope, an unreferenced plain
assignment binding whose name is not a fixed global yields exactly one
W203, and a binding whose name is a fixed global yields none. -/
theorem c4_sweep_skips_top_level :
    (∀ (st : LinterState) (vars : List (String × Binding)) (rest : ScopeT),
      sweepMethods st ((none, vars) :: rest) = sweepMethods st rest) ∧
    (∀ (st st' : LinterState) (f : String)
       (vars : List (String × Binding)) (name : String) (b : Binding),
      sweep st = some st' → (some f, vars) ∈ st.scope →
      sweepSkip (some f) = false →
      (name, b) ∈ vars → b.accessed = false → b.type = "assignment" →
      name ∉ GLOBALS → GoodDiag st →
      (logText st b.ln b.ch UNREFERENCED_ASSIGNMENT
        ("Unreferenced assignment \"" ++ name ++ "\"") true).isSome = true ∧
      st'.loggedMessages.count
        ((logText st b.ln b.ch UNREFERENCED_ASSIGNMENT
          ("Unreferenced assignment \"" ++ name ++ "\"") true).getD "")
        = 1) ∧
    (∀ (st : LinterState) (name : String) (b : Binding),
      name ∈ GLOBALS → b.accessed = false → b.type = "assignment" →
      sweepBindings st [(name, b)] = some st) := by
  refine ⟨?_, ?_, ?_⟩
  · intro st vars rest
    rfl
  · intro st st' f vars name b hok hscope hskip hvmem hacc htype hglob hgd
    obtain ⟨t, hlt, hmemt⟩ :=
      sweepMethods_w203_mem st.scope st st' f vars name b hok hscope
        hskip hvmem hacc htype hglob
    have hgd' : GoodDiag st' := (sweep_advances hok).1.2.2 hgd
    refine ⟨by rw [hlt]; rfl, ?_⟩
    rw [hlt]
    simp only [Option.getD_some]
    exact count_one_of_mem_goodDiag hgd' hmemt
  · intro st name b hg hacc htype
    unfold sweepBindings
    rw [hacc]
    simp only [Bool.false_eq_true, if_false]
    have h1 : ¬ b.type = "argument" := by
      rw [htype]
      decide
    have h2 : ¬ (b.type = "assignment" ∧ name ∉ GLOBALS) :=
      fun hand => hand.2 hg
    rw [if_neg h1, if_neg h2]
    rfl

/-- C4 (witness): the amended theorem's three parts applied concretely:
the skip of a top-level entry, a W203 for the unreferenced assignment `x`
in function `foo`, and the exemption of the global name `self`. -/
theorem c4_witness :
    sweepMethods (initState "t" [])
      ((none, [("x", { type := "assignment", accessed := false,
                       ln := 0, ch := 0 })]) :: []) =
      sweepMethods (initState "t" []) [] ∧
    ((logText c4WitnessState 0 0 UNREFERENCED_ASSIGNMENT
      "Unreferenced assignment \"x\"" true).isSome = true ∧
     c4WitnessState'.loggedMessages.count
       ((logText c4WitnessState 0 0 UNREFERENCED_ASSIGNMENT
         "Unreferenced assignment \"x\"" true).getD "") = 1) ∧
    sweepBindings (initState "t" [])
      [("self", { type := "assignment", accessed := false,
                  ln := 0, ch := 0 })] = some (initState "t" []) :=
  ⟨c4_sweep_skips_top_level.1 (initState "t" [])
    [("x", { type := "assignment", accessed := false, ln := 0, ch := 0 })]
    [],
   c4_sweep_skips_top_level.2.1 c4WitnessState c4WitnessState' "foo"
     [("x", { type := "assignment", accessed := false, ln := 0, ch := 0 })]
     "x" { type := "assignment", accessed := false, ln := 0, ch := 0 }
     rfl (by decide) rfl (by decide) rfl rfl (by decide)
     ⟨by decide, by decide, rfl⟩,
   c4_sweep_skips_top_level.2.2 (initState "t" []) "self"
     { type := "assignment", accessed := false, ln := 0, ch := 0 }
     (by decide) rfl rfl⟩

/-- C5: position correction.  (1) `reposition` maps a 0-based in-range
position to 1-based line and a character advanced by the line's
leading-whitespace length; (2) with `reposition=False` the position is
reported unchanged; (3) every repositioned log that appends a diagnostic
reports position `(line+1, char+1+w)` where `w` is the leading-whitespace
length of source line `line`; (4) an E100 from a matched compile failure
is reported exactly at the parsed position; (5) likewise an E101 from a
matched parse failure.  (The five semantic emitters — E200 in
`resolveChecksAux`, E201 in `addToScope`, E202 in `traverseTokens`,
W202/W203 in `sweepBindings` — all call `logMessage` with
`reposition = true`; the two compile/parse sites pass `false`.) -/
theorem c5_position_correction :
    (∀ (cl : List String) (l c : Nat) (s : String),
      cl.get? l = some s →
      reposition cl l c = some (l + 1, c + 1 + leadingWhitespaceLen s)) ∧
    (∀ (st : LinterState) (l c : Nat),
      logPosition st l c false = some (l, c)) ∧
    (∀ (st : LinterState) (l c : Nat) (e msg s : String)
       (st' : LinterState),
      st.codeLines.get? l = some s →
      logMessage st l c e msg true = some st' →
      st'.diagnostics = st.diagnostics ∨
      st'.diagnostics.getLast?.map (fun d => (d.line, d.char)) =
        some (l + 1, c + 1 + leadingWhitespaceLen s)) ∧
    (∀ (fn : String) (cl : List String) (fuel l c : Nat)
       (msg raw : String) (st : LinterState),
      lint fn cl fuel (ExtResult.errMatched l c msg)
        (ParseOutcome.errUnmatched raw) = LintResult.sysExit st →
      st.diagnostics.map (fun d => (d.line, d.char, d.code)) =
        [(l, c, COMPILE_ERROR)]) ∧
    (∀ (fn : String) (cl : List String) (fuel l c : Nat) (msg : String)
       (st : LinterState),
      lint fn cl fuel ExtResult.ok (ParseOutcome.errMatched l c msg) =
        LintResult.sysExit st →
      st.diagnostics.map (fun d => (d.line, d.char, d.code)) =
        [(l, c, PARSE_ERROR)]) := by
  refine ⟨?_, ?_, ?_, ?_, ?_⟩
  · intro cl l c s hget
    unfold reposition
    rw [hget]
  · intro st l c
    rfl
  · intro st l c e msg s st' hget hl
    have hp : logPosition st l c true =
        some (l + 1, c + 1 + leadingWhitespaceLen s) := by
      show reposition st.codeLines l c = _
      unfold reposition
      rw [hget]
    unfold logMessage at hl
    rw [hp] at hl
    simp only at hl
    split at hl
    · cases hl
      left
      rfl
    · cases hl
      right
      simp [List.getLast?_concat]
  · intro fn cl fuel l c msg raw st h
    unfold lint at h
    simp only at h
    cases hl : logMessage (initState fn cl) l c COMPILE_ERROR msg false with
    | none => rw [hl] at h; exact absurd h (by simp)
    | some st1 =>
      rw [hl] at h
      unfold lintFromParse at h
      simp only at h
      injection h with h2
      subst h2
      injection hl with h1
      subst h1
      rfl
  · intro fn cl fuel l c msg st h
    unfold lint at h
    simp only at h
    unfold lintFromParse at h
    simp only at h
    cases hl : logMessage (initState fn cl) l c PARSE_ERROR msg false with
    | none => rw [hl] at h; exact absurd h (by simp)
    | some st1 =>
      rw [hl] at h
      injection h with h2
      subst h2
      injection hl with h1
      subst h1
      rfl

/-- C5 (witness): the parts of the position-correction theorem applied at
concrete inputs: a line with two leading spaces, the identity of
uncorrected positions, a repositioned W203, and single-diagnostic
E100/E101 runs. -/
theorem c5_witness :
    reposition ["  ab"] 0 2 = some (1, 5) ∧
    logPosition (initState "t" []) 3 7 false = some (3, 7) ∧
    (c7WitnessState.diagnostics = (initState "t" ["f(bad = 1)"]).diagnostics ∨
      c7WitnessState.diagnostics.getLast?.map (fun d => (d.line, d.char)) =
        some (0 + 1, 2 + 1 + leadingWhitespaceLen "f(bad = 1)")) ∧
    c2WitnessState.diagnostics.map (fun d => (d.line, d.char, d.code)) =
      [(1, 1, COMPILE_ERROR)] ∧
    c5E101State.diagnostics.map (fun d => (d.line, d.char, d.code)) =
      [(1, 1, PARSE_ERROR)] :=
  ⟨c5_position_correction.1 ["  ab"] 0 2 "  ab" rfl,
   c5_position_correction.2.1 (initState "t" []) 3 7,
   c5_position_correction.2.2.1 (initState "t" ["f(bad = 1)"]) 0 2
     INVALID_KEYWORD_ARGUMENT "Invalid keyword argument \"bad\""
     "f(bad = 1)" c7WitnessState rfl rfl,
   c5_position_correction.2.2.2.1 "t" ["x"] 5 1 1 "m" "raw"
     c2WitnessState rfl,
   c5_position_correction.2.2.2.2 "t" ["x"] 5 1 1 "m" c5E101State rfl⟩

/-- C6: diagnostics are never duplicated by formatted text within one
run: (1) in every finished run the emitted diagnostic list has pairwise
distinct formatted texts; (2) a `log_message` call whose formatted text
was already emitted is discarded silently: the state — diagnostic list
and exit status included — is returned unchanged. -/
theorem c6_no_duplicate_diagnostics :
    (∀ (fn : String) (cl : List String) (fuel : Nat) (cr : ExtResult)
       (pr : ParseOutcome) (st : LinterState),
      lint fn cl fuel cr pr = LintResult.finished st →
      (st.diagnostics.map Diag.text).Nodup ∧ st.loggedMessages.Nodup) ∧
    (∀ (st : LinterState) (l c : Nat) (e msg : String) (r : Bool)
       (t : String),
      logText st l c e msg r = some t → t ∈ st.loggedMessages →
      logMessage st l c e msg r = some st) := by
  constructor
  · intro fn cl fuel cr pr st h
    have hgd := lint_finished_goodDiag h
    refine ⟨?_, hgd.2.1⟩
    rw [← hgd.2.2]
    exact hgd.2.1
  · intro st l c e msg r t ht hmem
    unfold logText at ht
    unfold logMessage
    cases hp : logPosition st l c r with
    | none => rw [hp] at ht; exact absurd ht (by simp)
    | some pos =>
      rw [hp] at ht
      simp only [Option.map_some'] at ht
      cases ht
      simp only
      rw [if_pos hmem]

/-- C6 (witness): the theorem applied to the clean run and to a state
that already holds the exact formatted text being logged again. -/
theorem c6_witness :
    (((initState "t" ["x = 1"]).diagnostics.map Diag.text).Nodup ∧
      (initState "t" ["x = 1"]).loggedMessages.Nodup) ∧
    logMessage c6WitnessState 0 0 UNREFERENCED_ASSIGNMENT "m" true =
      some c6WitnessState :=
  ⟨c6_no_duplicate_diagnostics.1 "t" ["x = 1"] 5 ExtResult.ok
     (ParseOutcome.ok (Ast.token "1" 0 0)) (initState "t" ["x = 1"]) rfl,
   c6_no_duplicate_diagnostics.2 c6WitnessState 0 0
     UNREFERENCED_ASSIGNMENT "m" true
     (formatText "t" 1 1 (styleCode UNREFERENCED_ASSIGNMENT) "m")
     rfl (by decide)⟩

/-- C7: keyword-argument shapes `name = value` in token gathering: when
the left side's name is not one of BUILTIN_KEYWORD_ARGUMENTS
(items/outitems), an E202 "invalid keyword argument" is logged at the
left side's position and only the right-hand value subtree is searched
for reference tokens; when it is recognized, nothing is logged and again
only the value subtree is searched.  In both cases the left side itself
is never searched. -/
theorem c7_keyword_argument (fuel : Nat) (st : LinterState) (a v : Ast)
    (rest : List Ast) (ln ch : Nat) (m : Option String)
    (st' : LinterState) (toks : List LToken)
    (h : traverseTokens (fuel + 1) st (Ast.node "=" (a :: v :: rest) ln ch)
      m = some (st', toks)) :
    (a.val ∈ BUILTIN_KEYWORD_ARGUMENTS →
      traverseTokens fuel st v m = some (st', toks)) ∧
    (a.val ∉ BUILTIN_KEYWORD_ARGUMENTS →
      (logMessage st a.ln a.ch INVALID_KEYWORD_ARGUMENT
        ("Invalid keyword argument \"" ++ a.val ++ "\"") true).elim False
        (fun st1 => traverseTokens fuel st1 v m = some (st', toks))) := by
  unfold traverseTokens at h
  split at h
  · rename_i hdot
    simp [Ast.val] at hdot
  · split at h
    · rename_i hcolon
      simp [Ast.val] at hcolon
    · split at h
      · try simp only at h
        split at h
        · rename_i hin
          try simp only [Option.some_bind] at h
          constructor
          · intro _
            exact h
          · intro hnin
            exact absurd hin hnin
        · rename_i hnin'
          constructor
          · intro hin
            exact absurd hin hnin'
          · intro _
            cases hl : logMessage st a.ln a.ch INVALID_KEYWORD_ARGUMENT
                ("Invalid keyword argument \"" ++ a.val ++ "\"") true with
            | none => rw [hl] at h; exact absurd h (by simp)
            | some st1 =>
              rw [hl] at h
              simp only [Option.elim]
              exact h
      · rename_i hneq
        simp [Ast.val] at hneq

/-- C7 (witness): the theorem applied to the keyword-argument node
`bad = 1`, whose left side is not a recognized keyword-argument name. -/
theorem c7_witness :
    ((Ast.token "bad" 0 2).val ∈ BUILTIN_KEYWORD_ARGUMENTS →
      traverseTokens 5 (initState "t" ["f(bad = 1)"]) (Ast.token "1" 0 8)
        none = some (c7WitnessState, [])) ∧
    ((Ast.token "bad" 0 2).val ∉ BUILTIN_KEYWORD_ARGUMENTS →
      (logMessage (initState "t" ["f(bad = 1)"]) 0 2
        INVALID_KEYWORD_ARGUMENT "Invalid keyword argument \"bad\""
        true).elim False
        (fun st1 => traverseTokens 5 st1 (Ast.token "1" 0 8) none =
          some (c7WitnessState, []))) :=
  c7_keyword_argument 5 (initState "t" ["f(bad = 1)"])
    (Ast.token "bad" 0 2) (Ast.token "1" 0 8) [] 0 2 none
    c7WitnessState [] rfl

/-- C9: the lifecycle of the `accessed` (referenced) flag.  (1) A binding
is created by `add_to_scope` with `accessed = false` (also when it
overwrites an existing binding); (2) the traversal phase never sets any
flag: if every binding is unaccessed before `traverse`, every binding is
unaccessed after it; (3) `resolve_checks` — the only code that sets the
flag — never resets it: a flag that is true before stays true after; (4)
the post-pass sweep leaves the scope table untouched.  Since `lint` runs
traversal, then `resolve_checks`, then the sweep, a flag once set is
never reset for the lifetime of the run. -/
theorem c9_accessed_flag_lifecycle :
    (∀ (fuel : Nat) (st : LinterState) (m : Option String) (token : Ast)
       (vtype : String) (st' : LinterState) (cs : List Chk) (name : String),
      addToScope fuel st m token vtype = some st' →
      resolveName fuel token m = some (cs, name) →
      getScope st' m name =
        some { type := vtype, accessed := false, ln := token.ln,
               ch := token.ch }) ∧
    (∀ (fuel : Nat) (st : LinterState) (node : Ast) (m : Option String)
       (st' : LinterState),
      traverse fuel st node m = some st' →
      AllUnaccessed st.scope → AllUnaccessed st'.scope) ∧
    (∀ (st st' : LinterState) (m : Option String) (n : String)
       (b : Binding),
      resolveChecks st = some st' →
      getScope st m n = some b → b.accessed = true →
      (getScope st' m n).map Binding.accessed = some true) ∧
    (∀ (st st' : LinterState), sweep st = some st' → st'.scope = st.scope) :=
  ⟨fun _ _ _ _ _ _ _ _ h hr => addToScope_creates h hr,
   fun fuel _ _ _ _ h hu => ((traverse_advances fuel).1 _ _ _ _ h).2 hu,
   fun st st' m n b h hb hacc =>
     resolveChecksAux_accessed_mono st.checks st st' h m n b hb hacc,
   fun st st' h => sweepMethods_scope st.scope st st' h⟩

/-- C9 (witness): the four parts applied concretely: a fresh assignment
binding for `x` in `foo` carries `accessed = false`; traversing the
literal token `1` keeps the empty scope unaccessed; `resolve_checks` on a
state whose binding is already accessed leaves it accessed; the sweep on
an empty scope preserves the scope. -/
theorem c9_witness :
    getScope c4WitnessState (some "foo") "x" =
      some { type := "assignment", accessed := false, ln := 0, ch := 0 } ∧
    AllUnaccessed (initState "t" ["x = 1"]).scope ∧
    (getScope c9WitnessState (some "f") "x").map Binding.accessed =
      some true ∧
    (initState "t" []).scope = (initState "t" []).scope :=
  ⟨c9_accessed_flag_lifecycle.1 5 (initState "t" ["x = 1"]) (some "foo")
     (Ast.token "x" 0 0) "assignment" c4WitnessState [] "x" rfl rfl,
   c9_accessed_flag_lifecycle.2.1 5 (initState "t" ["x = 1"])
     (Ast.token "1" 0 0) none (initState "t" ["x = 1"]) rfl
     (fun e he => absurd he (List.not_mem_nil e)),
   c9_accessed_flag_lifecycle.2.2.1 c9WitnessState c9WitnessState
     (some "f") "x"
     { type := "assignment", accessed := true, ln := 0, ch := 0 }
     rfl (by decide) rfl,
   c9_accessed_flag_lifecycle.2.2.2 (initState "t" []) (initState "t" [])
     rfl⟩

/-- C10: the unguarded `self.code_lines[line]` index in `reposition`:
position correction is only defined for in-range lines.  `reposition`
fails exactly when the 0-based line is at or past the number of source
lines; a repositioned `log_message` with an out-of-range line fails (the
modelled IndexError) instead of emitting the diagnostic, and with an
in-range line it always succeeds. -/
theorem c10_reposition_bounds (st : LinterState) (l c : Nat)
    (e msg : String) :
    (reposition st.codeLines l c = none ↔ st.codeLines.length ≤ l) ∧
    (st.codeLines.length ≤ l → logMessage st l c e msg true = none) ∧
    (l < st.codeLines.length →
      (logMessage st l c e msg true).isSome = true) := by
  have hrep : ∀ s : String, st.codeLines.get? l = some s →
      reposition st.codeLines l c =
        some (l + 1, c + 1 + leadingWhitespaceLen s) := by
    intro s hget
    unfold reposition
    rw [hget]
  refine ⟨⟨?_, ?_⟩, ?_, ?_⟩
  · intro hnone
    cases hget : st.codeLines.get? l with
    | none => exact List.get?_eq_none.mp hget
    | some s =>
      rw [hrep s hget] at hnone
      exact absurd hnone (by simp)
  · intro hle
    unfold reposition
    rw [List.get?_eq_none.mpr hle]
  · intro hle
    have hpos : logPosition st l c true = none := by
      show reposition st.codeLines l c = none
      unfold reposition
      rw [List.get?_eq_none.mpr hle]
    unfold logMessage
    rw [hpos]
  · intro hlt
    cases hget : st.codeLines.get? l with
    | none =>
      have := List.get?_eq_none.mp hget
      omega
    | some s =>
      have hpos : logPosition st l c true =
          some (l + 1, c + 1 + leadingWhitespaceLen s) := hrep s hget
      unfold logMessage
      rw [hpos]
      simp only
      split <;> simp

/-- C10 (witness): on a one-line source, logging at line 5 fails with the
modelled IndexError while logging at line 0 succeeds. -/
theorem c10_witness :
    logMessage (initState "t" ["one"]) 5 0 UNREFERENCED_ASSIGNMENT "m"
      true = none ∧
    (logMessage (initState "t" ["one"]) 0 0 UNREFERENCED_ASSIGNMENT "m"
      true).isSome = true :=
  ⟨(c10_reposition_bounds (initState "t" ["one"]) 5 0
      UNREFERENCED_ASSIGNMENT "m").2.1 (by decide),
   (c10_reposition_bounds (initState "t" ["one"]) 0 0
      UNREFERENCED_ASSIGNMENT "m").2.2 (by decide)⟩

end Serplint
